import Mathlib

/-!
Verification of the archcheck C core (stop barrier, string interning,
event log, frame stack, creation-correlation table) against its
specification.  Each C function used by the claims is shallowly embedded
as an executable Lean definition; `Outcome` models normal return versus
process abort (the REQUIRE / UNREACHABLE macros of
src/c/tracking/invariants.h).  Allocation is modeled by an explicit
`allocOk` oracle where the source checks an allocation result
(`_tracking.c`); where the source aborts on allocation failure
(interning.c, frame.c) the pure model takes the successful branch, since
the abort has no observable non-abort behavior.
-/

namespace Archcheck

/-- Result of running a piece of C code: either a normal return value or a
process abort raised by `REQUIRE` / `ENSURE` / `UNREACHABLE`. -/
inductive Outcome (α : Type) where
  | ok (val : α)
  | aborted
  deriving DecidableEq, Repr

/-- Map over the value of a non-aborted outcome. -/
def Outcome.map {α β : Type} (f : α → β) : Outcome α → Outcome β
  | .ok v => .ok (f v)
  | .aborted => .aborted

/-- Sequence two fallible computations, propagating aborts. -/
def Outcome.bind {α β : Type} (x : Outcome α) (f : α → Outcome β) : Outcome β :=
  match x with
  | .ok v => f v
  | .aborted => .aborted

/-! ## Stop Barrier (src/c/barrier.c): sequential state model

`BarrierS` is the global `g_barrier` of barrier.c together with the
atomic fields.  The pthread mutex and condition variable only serialize
`stop()` and implement its wait; they carry no further state.  The
thread-local `tl_callback_depth` is passed explicitly as `depth`.

The functions below are the single-thread (sequential) projections of
the barrier operations: each models one complete call with no
interleaved writes from other threads.  The interleaved behavior of
`try_enter` / `leave` / `stop` is modeled separately by the labeled
transition system `BStep` further down. -/

/-- Result enumeration of `barrier_stop` (barrier.h `StopResult`). -/
inductive StopResult where
  | ok
  | fromCallback
  deriving DecidableEq, Repr

/-- Global barrier state (`Barrier` struct of barrier.c).  `count` is the
`active_callbacks` atomic int64 counter (kept as `Int`, as in the source,
where decrement below zero would be an ordinary wraparound-free signed
decrement). -/
structure BarrierS where
  count : Int
  stopping : Bool
  initialized : Bool
  deriving DecidableEq, Repr

/-- The `g_barrier = {0}` static initializer. -/
def barrierZero : BarrierS := { count := 0, stopping := false, initialized := false }

/-- Model of `barrier_init` (barrier.c lines 60-76).  Idempotent; resets
the counter and stopping flag on a fresh init.  The mutex/cond
initialization REQUIREs abort only on resource exhaustion and are not
modeled. -/
def barrier_init_fn (st : BarrierS) : BarrierS :=
  if st.initialized then st
  else { count := 0, stopping := false, initialized := true }

/-- Model of `barrier_destroy` (barrier.c lines 78-88): idempotent, only
clears `initialized`. -/
def barrier_destroy_fn (st : BarrierS) : BarrierS :=
  if st.initialized then { st with initialized := false } else st

/-- Model of one complete, uninterleaved `barrier_try_enter` call
(barrier.c lines 94-130) by the thread whose thread-local depth is
`depth`.  Returns (result, new thread-local depth, new barrier state).
Sequentially the double-check after the increment re-reads the same
`stopping` value as the fast path, so the decrement-and-fail race branch
(lines 117-126) cannot be taken here; that branch is the `failRace` step
of the interleaved model `BStep`. -/
def barrier_try_enter_fn (depth : Nat) (st : BarrierS) : Bool × Nat × BarrierS :=
  if st.initialized = false then (false, depth, st)
  else if st.stopping then (false, depth, st)
  else (true, depth + 1, { st with count := st.count + 1 })

/-- Model of `barrier_leave` (barrier.c lines 132-160).  No-op when the
barrier is destroyed; aborts via REQUIRE on a mismatched leave
(thread-local depth zero); otherwise decrements depth and counter. -/
def barrier_leave_fn (depth : Nat) (st : BarrierS) : Outcome (Nat × BarrierS) :=
  if st.initialized = false then .ok (depth, st)
  else if depth = 0 then .aborted
  else .ok (depth - 1, { st with count := st.count - 1 })

/-- Model of one complete `barrier_stop` call (barrier.c lines 162-200)
by a thread with thread-local depth `depth`.  The condition-variable wait
loop (lines 192-194) is where a real call blocks until the in-flight
counter drains; a completed call has passed it, and the interleaved
drain is the `stopOk` step of `BStep`.  This sequential projection
returns once the loop is passed, leaving `count` as the drained
counter's bookkeeping value. -/
def barrier_stop_fn (depth : Nat) (st : BarrierS) : StopResult × BarrierS :=
  if 0 < depth then (.fromCallback, st)
  else if st.initialized = false then (.ok, st)
  else if st.stopping then (.ok, st)
  else (.ok, { st with stopping := true })

/-- Model of `barrier_is_stopping` (barrier.c lines 222-228). -/
def barrier_is_stopping_fn (st : BarrierS) : Bool :=
  if st.initialized = false then false else st.stopping

/-! ## Stop Barrier: interleaved transition system

A labeled small-step semantics for `n` producer threads running
`barrier_try_enter` / `barrier_leave` cycles concurrently with one
stopping thread running a single `barrier_stop` call, on an initialized
barrier.  Each atomic instruction of barrier.c is one step:

* `beginTE`  - a thread calls `try_enter` (about to load `stopping`);
* `failFast` - the fast-path load (line 105) sees `stopping` set, the
  call returns false;
* `pass1`    - the fast-path load sees `stopping` clear;
* `doInc`    - the `fetch_add` on `active_callbacks` (line 110);
* `failRace` - the double-check load (line 117) sees `stopping` set: the
  thread decrements back and the call returns false;
* `enterOk`  - the double-check sees `stopping` clear: the call returns
  true and the thread is inside the protected section;
* `leave`    - `barrier_leave`: the thread exits the section and
  decrements the counter;
* `stopBegin` - `barrier_stop` acquires the mutex, sees `stopping` clear
  and publishes it (line 189);
* `stopOk`   - the wait loop (line 192) observes the counter at zero and
  `stop` returns Ok.

The stopping thread is distinct from the producers and holds no entered
section, so the thread-local-depth check of `barrier_stop` passes and is
not part of the state.  Atomics are modeled with interleaving
(sequentially consistent) semantics, which the acquire/release
annotations of the source are there to establish. -/

/-- Program counter of a producer thread inside a `try_enter` /
protected-section / `leave` cycle. -/
inductive PPC where
  | outside
  | started
  | passed1
  | incr
  | inSec
  deriving DecidableEq, Repr

/-- Program counter of the stopping thread. -/
inductive SPC where
  | idle
  | waiting
  | done
  deriving DecidableEq, Repr

/-- Global state of the interleaved barrier model with `n` producer
threads: per-thread program counters, the stopper's program counter, the
`stopping` flag and the `active_callbacks` counter. -/
structure BState (n : Nat) where
  pc : Fin n → PPC
  spc : SPC
  stopping : Bool
  cnt : Int

/-- Step labels; `enterOk t` marks a `try_enter` call by thread `t`
returning true, `failFast t` / `failRace t` mark it returning false. -/
inductive BLabel (n : Nat) where
  | beginTE (t : Fin n)
  | failFast (t : Fin n)
  | pass1 (t : Fin n)
  | doInc (t : Fin n)
  | failRace (t : Fin n)
  | enterOk (t : Fin n)
  | leave (t : Fin n)
  | stopBegin
  | stopOk
  deriving DecidableEq

/-- One atomic step of the interleaved barrier semantics. -/
inductive BStep {n : Nat} : BState n → BLabel n → BState n → Prop where
  | beginTE {s : BState n} (t : Fin n) (h : s.pc t = .outside) :
      BStep s (.beginTE t) { s with pc := Function.update s.pc t .started }
  | failFast {s : BState n} (t : Fin n) (h : s.pc t = .started)
      (hs : s.stopping = true) :
      BStep s (.failFast t) { s with pc := Function.update s.pc t .outside }
  | pass1 {s : BState n} (t : Fin n) (h : s.pc t = .started)
      (hs : s.stopping = false) :
      BStep s (.pass1 t) { s with pc := Function.update s.pc t .passed1 }
  | doInc {s : BState n} (t : Fin n) (h : s.pc t = .passed1) :
      BStep s (.doInc t)
        { s with pc := Function.update s.pc t .incr, cnt := s.cnt + 1 }
  | failRace {s : BState n} (t : Fin n) (h : s.pc t = .incr)
      (hs : s.stopping = true) :
      BStep s (.failRace t)
        { s with pc := Function.update s.pc t .outside, cnt := s.cnt - 1 }
  | enterOk {s : BState n} (t : Fin n) (h : s.pc t = .incr)
      (hs : s.stopping = false) :
      BStep s (.enterOk t) { s with pc := Function.update s.pc t .inSec }
  | leave {s : BState n} (t : Fin n) (h : s.pc t = .inSec) :
      BStep s (.leave t)
        { s with pc := Function.update s.pc t .outside, cnt := s.cnt - 1 }
  | stopBegin {s : BState n} (h : s.spc = .idle) (hs : s.stopping = false) :
      BStep s .stopBegin { s with spc := .waiting, stopping := true }
  | stopOk {s : BState n} (h : s.spc = .waiting) (hc : s.cnt ≤ 0) :
      BStep s .stopOk { s with spc := .done }

/-- The initial state: barrier freshly initialized and active, all
threads outside, stop not yet requested. -/
def bInit (n : Nat) : BState n :=
  { pc := fun _ => .outside, spc := .idle, stopping := false, cnt := 0 }

/-- Reachability from the initial state. -/
inductive BReach {n : Nat} : BState n → Prop where
  | init : BReach (bInit n)
  | step {s s' : BState n} {l : BLabel n} (h : BReach s) (hs : BStep s l s') : BReach s'

/-- Zero or more steps (labels forgotten). -/
def BStepStar {n : Nat} : BState n → BState n → Prop :=
  Relation.ReflTransGen (fun a b => ∃ l, BStep a l b)

/-- Contribution of one thread to the `active_callbacks` counter: 1 after
its `fetch_add` and before the matching decrement. -/
def pcWeight : PPC → Int
  | .incr => 1
  | .inSec => 1
  | _ => 0

/-! ## String interning (src/c/interning.c)

`StringTable` is the global `g_table`: a growable array `strings[]` of
owned copies (a Lean list, append-only) and an open-addressed index
`buckets[]` of offsets into `strings[]` (a list of `Option Nat`, entry
`none` modeling `STRING_TABLE_EMPTY`).  A returned handle is the offset
of the stored copy in `strings[]` - C pointer identity of the stable
`strings[i]` pointer corresponds exactly to index identity, since the
array never moves or frees existing entries.  The pthread mutex
serializes all operations, so each call is modeled as one atomic
function application.  Allocation-failure REQUIREs abort the process and
are modeled by taking the successful branch (no observable non-abort
behavior exists for them); the `ASSERT_INITIALIZED` REQUIRE and the
`UNREACHABLE` of a full probe loop are modeled as `.aborted`. -/

/-- UTF-8 encoding of one code point as byte values: the bytes a C
string holds for this character. -/
def utf8Bytes (c : Nat) : List Nat :=
  if c < 0x80 then [c]
  else if c < 0x800 then [0xC0 + c / 0x40, 0x80 + c % 0x40]
  else if c < 0x10000 then
    [0xE0 + c / 0x1000, 0x80 + (c / 0x40) % 0x40, 0x80 + c % 0x40]
  else
    [0xF0 + c / 0x40000, 0x80 + (c / 0x1000) % 0x40, 0x80 + (c / 0x40) % 0x40, 0x80 + c % 0x40]

/-- The byte sequence of a string as seen by the C code. -/
def strBytes (s : String) : List Nat :=
  (s.data.map (fun ch => utf8Bytes ch.toNat)).flatten

/-- FNV-1a hash of the bytes of a string, on 64-bit words (interning.c
lines 33-43), with the wraparound of `uint64_t` multiplication made
explicit. -/
def fnv1a (s : String) : Nat :=
  (strBytes s).foldl
    (fun h b => ((h ^^^ b) * 1099511628211) % (2 ^ 64))
    14695981039346656037

/-- Global string table state (`StringTable` struct of interning.c).
`strings_count` is `strings.length`; `buckets_capacity` is
`buckets.length`; the separate `strings_capacity` only tracks the
reallocation granularity of the stable array and has no observable
effect. -/
structure StringTable where
  strings : List String
  buckets : List (Option Nat)
  initialized : Bool
  deriving DecidableEq, Repr

/-- The `g_table = {0}` static initializer. -/
def tableZero : StringTable := { strings := [], buckets := [], initialized := false }

/-- Linear probing loop of `find_bucket` (interning.c lines 82-98).
`fuel` counts the remaining buckets the do-while loop may visit before
wrapping to its start; running out models the `UNREACHABLE("hash table
full")` at line 101.  A bucket holding `none` is empty (probe miss); a
bucket whose entry's stored string equals `s` is a hit. -/
def probeFrom (tbl : StringTable) (s : String) : Nat → Nat → Outcome (Bool × Nat)
  | 0, _ => .aborted
  | fuel + 1, idx =>
    match tbl.buckets[idx]? with
    | none => .aborted
    | some none => .ok (false, idx)
    | some (some e) =>
      if tbl.strings[e]? = some s then .ok (true, idx)
      else probeFrom tbl s fuel ((idx + 1) % tbl.buckets.length)

/-- Model of `find_bucket` (interning.c lines 78-102): probe from
`hash % capacity`, for at most `capacity` buckets. -/
def findBucket (tbl : StringTable) (s : String) : Outcome (Bool × Nat) :=
  probeFrom tbl s tbl.buckets.length (fnv1a s % tbl.buckets.length)

/-- One iteration of the rehash loop of `resize_buckets` (interning.c
lines 126-136): a non-empty old bucket's entry is re-indexed by probing
the new array for its string; the C code ignores the `found` flag and
stores the entry at whatever bucket `find_bucket` returns.  Reading
`strings[entry]` out of range is undefined behavior in C and modeled as
abort; it cannot happen for well-formed tables. -/
def rehash_step (acc : Outcome StringTable) (entry : Option Nat) : Outcome StringTable :=
  match acc with
  | .aborted => .aborted
  | .ok t =>
    match entry with
    | none => .ok t
    | some e =>
      match t.strings[e]? with
      | none => .aborted
      | some s =>
        match findBucket t s with
        | .aborted => .aborted
        | .ok (_, bk) => .ok { t with buckets := t.buckets.set bk (some e) }

/-- Model of `resize_buckets` (interning.c lines 108-139): double the
bucket array (all-empty), then rehash every old entry, in old bucket
order, into the new array. -/
def resize_buckets (tbl : StringTable) : Outcome StringTable :=
  tbl.buckets.foldl rehash_step
    (.ok { tbl with buckets := List.replicate (tbl.buckets.length * 2) none })

/-- Doubling loop of `string_table_init` (interning.c lines 177-180):
smallest power of two at or above the target, computed with explicit
fuel (the loop doubles from 1, so `target` iterations always suffice). -/
def roundPow2Aux (target : Nat) : Nat → Nat → Nat
  | 0, cap => cap
  | fuel + 1, cap => if cap < target then roundPow2Aux target fuel (cap * 2) else cap

/-- Model of `string_table_init` (interning.c lines 165-202): idempotent;
capacity 0 selects the default 1024; the bucket count is rounded up to a
power of two; all buckets start empty. -/
def string_table_init (initial_capacity : Nat) (tbl : StringTable) : StringTable :=
  if tbl.initialized then tbl
  else
    let ic := if initial_capacity = 0 then 1024 else initial_capacity
    let cap := roundPow2Aux ic ic 1
    { strings := [], buckets := List.replicate cap none, initialized := true }

/-- Model of `string_table_destroy` (interning.c lines 204-226):
idempotent; frees all strings and buckets and clears the state. -/
def string_table_destroy (tbl : StringTable) : StringTable :=
  if tbl.initialized = false then tbl
  else { strings := [], buckets := [], initialized := false }

/-- Model of `string_intern` (interning.c lines 228-278).  `none` models
a `nullptr` argument and a `nullptr` result.  A non-null intern on an
uninitialized table aborts (`ASSERT_INITIALIZED`, line 234).  On a hit
the stored offset (the stable `strings[buckets[bucket]]` pointer) is
returned and the table is unchanged.  On a miss the load factor
`(count + 1) / capacity > 0.75` (line 250-251, an exact comparison for
all sizes representable in double, stated rationally as
`4 * (count + 1) > 3 * capacity`) may trigger a resize followed by a
re-probe whose `REQUIRE(!found)` (line 256) aborts if the string
appeared; then the copy is appended and indexed. -/
def string_intern (tbl : StringTable) (s : Option String) : Outcome (Option Nat × StringTable) :=
  match s with
  | none => .ok (none, tbl)
  | some str =>
    if tbl.initialized = false then .aborted
    else
      match findBucket tbl str with
      | .aborted => .aborted
      | .ok (true, bk) =>
        match tbl.buckets[bk]? with
        | some (some e) => .ok (some e, tbl)
        | _ => .aborted
      | .ok (false, bk) =>
        let afterResize : Outcome (StringTable × Nat) :=
          if 4 * (tbl.strings.length + 1) > 3 * tbl.buckets.length then
            match resize_buckets tbl with
            | .aborted => .aborted
            | .ok t2 =>
              match findBucket t2 str with
              | .aborted => .aborted
              | .ok (true, _) => .aborted
              | .ok (false, bk2) => .ok (t2, bk2)
          else .ok (tbl, bk)
        match afterResize with
        | .aborted => .aborted
        | .ok (t2, bk2) =>
          .ok (some t2.strings.length,
            { t2 with
              strings := t2.strings ++ [str],
              buckets := t2.buckets.set bk2 (some t2.strings.length) })

/-- Model of `string_table_count` (interning.c lines 280-282). -/
def string_table_count (tbl : StringTable) : Nat := tbl.strings.length

/-- Intern a list of non-null strings in order, threading the table; this
models an arbitrary serialization of further `string_intern` calls in
the same session (all calls are serialized by the table mutex). -/
def internMany (tbl : StringTable) : List String → Outcome StringTable
  | [] => .ok tbl
  | s :: rest =>
    match string_intern tbl (some s) with
    | .aborted => .aborted
    | .ok (_, t) => internMany t rest

/-- Well-formedness invariant of the string table, established by
`string_table_init` and preserved by `string_intern`:
the bucket array is non-empty; every bucket entry is a valid offset;
no offset is indexed twice; the number of occupied buckets equals the
number of stored strings, which is strictly below the bucket capacity
(so an empty bucket always exists and probing terminates); stored
strings are pairwise distinct; and every stored string is found by
`find_bucket` at a bucket holding its own offset. -/
structure WF (tbl : StringTable) : Prop where
  cap_pos : 0 < tbl.buckets.length
  entries_lt : ∀ (b e : Nat), tbl.buckets[b]? = some (some e) → e < tbl.strings.length
  inj : ∀ (b1 b2 e : Nat),
    tbl.buckets[b1]? = some (some e) → tbl.buckets[b2]? = some (some e) → b1 = b2
  filled : (tbl.buckets.filter Option.isSome).length = tbl.strings.length
  count_lt : tbl.strings.length < tbl.buckets.length
  nodup : tbl.strings.Nodup
  reach : ∀ (i : Nat) (s : String), tbl.strings[i]? = some s →
    ∃ b, findBucket tbl s = .ok (true, b) ∧ tbl.buckets[b]? = some (some i)

/-- Intermediate invariant of the rehash loop of `resize_buckets`: after
processing the old-bucket prefix `processed` of table `orig`, the
partially rebuilt table `t` shares its strings, its new bucket array is
twice the old capacity, holds exactly the entries of `processed` (each
at most once, all valid), and each of those entries is findable by
probing. -/
structure RehashMid (orig : StringTable) (processed : List (Option Nat))
    (t : StringTable) : Prop where
  strings_eq : t.strings = orig.strings
  init_eq : t.initialized = orig.initialized
  len_eq : t.buckets.length = orig.buckets.length * 2
  entries_sub : ∀ (b e : Nat), t.buckets[b]? = some (some e) → some e ∈ processed
  entries_lt : ∀ (b e : Nat), t.buckets[b]? = some (some e) → e < t.strings.length
  inj : ∀ (b1 b2 e : Nat),
    t.buckets[b1]? = some (some e) → t.buckets[b2]? = some (some e) → b1 = b2
  filled : (t.buckets.filter Option.isSome).length = (processed.filter Option.isSome).length
  reach : ∀ e : Nat, some e ∈ processed → ∃ b s, t.strings[e]? = some s ∧
    findBucket t s = .ok (true, b) ∧ t.buckets[b]? = some (some e)

/-! ## Frame Stack (src/c/frame.c)

The per-worker thread-local stack `tl_stack` / `tl_depth` is modeled as
a Lean list with the top at the head; `tl_capacity` and `ensure_capacity`
only govern reallocation granularity (growth is unbounded, the
allocation-failure REQUIRE aborts and is modeled by the successful
branch), so they have no observable effect on stack content. -/

/-- `StackFrame` of frame.h: interned file/func pointers (handles into
the string table, `none` for nullptr) and a line number. -/
structure StackFrame where
  file : Option Nat
  line : Int
  func : Option Nat
  deriving DecidableEq, Repr

/-- `FRAME_NO_CALLER` (frame.h): the all-null sentinel. -/
def FRAME_NO_CALLER : StackFrame := { file := none, line := 0, func := none }

/-- Model of `frame_stack_push` (frame.c lines 76-84): REQUIRE-aborts on
a null frame pointer, otherwise pushes a copy. -/
def frame_stack_push (st : List StackFrame) (info : Option StackFrame) : Outcome (List StackFrame) :=
  match info with
  | none => .aborted
  | some f => .ok (f :: st)

/-- Model of `frame_stack_pop` (frame.c lines 86-92): REQUIRE-aborts on
underflow, otherwise drops the top (the cleared slot above the new top
is not observable). -/
def frame_stack_pop (st : List StackFrame) : Outcome (List StackFrame) :=
  match st with
  | [] => .aborted
  | _ :: rest => .ok rest

/-- Model of `frame_stack_caller` (frame.c lines 94-100): the entry
directly below the top, or none when depth < 2. -/
def frame_stack_caller (st : List StackFrame) : Option StackFrame :=
  match st with
  | _ :: c :: _ => some c
  | _ => none

/-- Model of `frame_stack_depth` (frame.c lines 102-104). -/
def frame_stack_depth (st : List StackFrame) : Nat := st.length

/-- Model of `frame_stack_clear` (frame.c lines 106-109): depth reset,
allocation retained (not observable). -/
def frame_stack_clear (_st : List StackFrame) : List StackFrame := []

/-- One operation observed by a worker's frame stack: a Call pushes its
frame, a Return pops, `clear` is the explicit lifecycle reset. -/
inductive FrameOp where
  | push (f : StackFrame)
  | pop
  | clear
  deriving DecidableEq, Repr

/-- Apply one operation to the frame.c stack. -/
def frame_step (st : List StackFrame) : FrameOp → Outcome (List StackFrame)
  | .push f => frame_stack_push st (some f)
  | .pop => frame_stack_pop st
  | .clear => .ok (frame_stack_clear st)

/-- Run a sequence of operations on the frame.c stack of one worker,
starting from the state `st0`, aborting on the first fatal operation. -/
def frame_run_from (st0 : List StackFrame) (ops : List FrameOp) : Outcome (List StackFrame) :=
  ops.foldl (fun acc op => acc.bind (fun st => frame_step st op)) (.ok st0)

/-- Run a sequence of operations on a fresh (empty) frame.c stack. -/
def frame_run (ops : List FrameOp) : Outcome (List StackFrame) :=
  frame_run_from [] ops

/-- Specification-side count (spec.md section 3, Invariants): the number
of unmatched Calls minus Returns observed since the last clear, as a
running fold over the observed operations. -/
def netStep (n : Int) : FrameOp → Int
  | .push _ => n + 1
  | .pop => n - 1
  | .clear => 0

/-- Net unmatched Calls minus Returns since the last clear, over a whole
observed sequence. -/
def netSinceClear (ops : List FrameOp) : Int :=
  ops.foldl netStep 0

/-! ## Event callback module (src/c/callback.c)

Global state `g_callback` / `g_user_data` / `g_active` plus the modules
it drives (string table, barrier).  The registered callback function and
its opaque user data live outside the embedding; the model records
whether a callback is registered and the trace of events it was invoked
with. -/

/-- `RawCallEvent` of callback.h (string fields are interned handles). -/
structure RawCallEvent where
  callee_file : Option Nat
  callee_line : Int
  callee_func : Option Nat
  caller_file : Option Nat
  caller_line : Int
  caller_func : Option Nat
  thread_id : Nat
  coro_id : Nat
  timestamp_ns : Nat
  deriving DecidableEq, Repr

/-- `RawReturnEvent` of callback.h. -/
structure RawReturnEvent where
  file : Option Nat
  line : Int
  func : Option Nat
  thread_id : Nat
  timestamp_ns : Nat
  has_exception : Bool
  deriving DecidableEq, Repr

/-- `RawCreateEvent` of callback.h. -/
structure RawCreateEvent where
  obj_id : Nat
  type_name : Option Nat
  file : Option Nat
  line : Int
  func : Option Nat
  thread_id : Nat
  timestamp_ns : Nat
  deriving DecidableEq, Repr

/-- `RawDestroyEvent` of callback.h. -/
structure RawDestroyEvent where
  obj_id : Nat
  type_name : Option Nat
  thread_id : Nat
  timestamp_ns : Nat
  deriving DecidableEq, Repr

/-- `RawEvent` of callback.h: the tagged union over the four kinds. -/
inductive RawEvent where
  | call (data : RawCallEvent)
  | ret (data : RawReturnEvent)
  | create (data : RawCreateEvent)
  | destroy (data : RawDestroyEvent)
  deriving DecidableEq, Repr

/-- Global state of callback.c together with the modules it owns. -/
structure CallbackS where
  g_callback : Bool
  active : Bool
  barrier : BarrierS
  table : StringTable
  invoked : List RawEvent
  deriving DecidableEq, Repr

/-- Observable actions of one `tracking_dispatch` call, instrumenting
the embedding so that "entered the barrier" and "invoked the callback"
are part of the result rather than inferred from state deltas. -/
inductive DAction where
  | tryEnter (ok : Bool)
  | leave
  | invoke (ev : RawEvent)
  deriving DecidableEq, Repr

/-- Model of `tracking_start` (callback.c lines 55-64). -/
def tracking_start_fn (cb : Bool) (st : CallbackS) : CallbackS :=
  { st with
    table := string_table_init 0 st.table,
    barrier := barrier_init_fn st.barrier,
    g_callback := cb,
    active := true }

/-- Model of `tracking_stop` (callback.c lines 66-88), called by a
thread with thread-local barrier depth `depth`: immediate Ok when
already stopped; on barrier-stop success clears the callback, the
string table and the barrier. -/
def tracking_stop_fn (depth : Nat) (st : CallbackS) : StopResult × CallbackS :=
  if st.active = false then (.ok, st)
  else
    match barrier_stop_fn depth st.barrier with
    | (.fromCallback, b) => (.fromCallback, { st with barrier := b })
    | (.ok, b) =>
      (.ok,
        { st with
          g_callback := false,
          active := false,
          table := string_table_destroy st.table,
          barrier := barrier_destroy_fn b })

/-- Model of `tracking_is_active` (callback.c lines 90-92). -/
def tracking_is_active_fn (st : CallbackS) : Bool := st.active

/-- Model of `tracking_dispatch` (callback.c lines 94-105) together with
the `barrier_dispatch` + `dispatch_wrapper` path it delegates to
(barrier.c lines 206-216, callback.c lines 43-49): a null event returns
immediately; an inactive module returns immediately; otherwise the stop
barrier is asked for entry and, on success, the registered callback (if
any) is invoked with the event before the barrier is released.  Returns
the action trace, the new thread-local depth and the new state. -/
def tracking_dispatch_fn (event : Option RawEvent) (depth : Nat) (st : CallbackS) :
    Outcome (List DAction × Nat × CallbackS) :=
  match event with
  | none => .ok ([], depth, st)
  | some ev =>
    if st.active = false then .ok ([], depth, st)
    else
      match barrier_try_enter_fn depth st.barrier with
      | (false, d1, b1) => .ok ([.tryEnter false], d1, { st with barrier := b1 })
      | (true, d1, b1) =>
        let st1 := { st with barrier := b1 }
        let st2 :=
          if st1.g_callback then { st1 with invoked := st1.invoked ++ [ev] } else st1
        match barrier_leave_fn d1 st2.barrier with
        | .aborted => .aborted
        | .ok (d2, b2) =>
          let acts :=
            if st1.g_callback then [DAction.tryEnter true, DAction.invoke ev, DAction.leave]
            else [DAction.tryEnter true, DAction.leave]
          .ok (acts, d2, { st2 with barrier := b2 })

/-! ## Tracking module (src/c/_tracking.c)

The Python extension module: frame-eval hook, PyRefTracer handlers, the
growing event log and the creation-correlation hash table.  Python
runtime values (code objects, frames, object pointers) enter the model
as already-extracted data (`CodeInfo`, object ids, type names); the
`copy_utf8` error capture per field is orthogonal to the claims and the
per-event `errors` list is left empty.  The model follows one worker
thread: `call_stack` / `stack_depth` are `__thread`, and the barrier's
thread-local depth is the `tlDepth` field.  `allocOk` is the allocation
oracle for the event log (the source checks `realloc` / `malloc` results
there instead of aborting). -/

/-- `MAX_TRACEBACK_DEPTH` (constants.h). -/
def MAX_TRACEBACK_DEPTH : Nat := 16
/-- `MAX_ARGS` (constants.h). -/
def MAX_ARGS : Nat := 8
/-- `MAX_STACK_DEPTH` (constants.h): fixed size of the `__thread
FrameInfo call_stack[]` array of _tracking.c. -/
def MAX_STACK_DEPTH : Nat := 256
/-- `INITIAL_EVENTS_CAPACITY` (constants.h). -/
def INITIAL_EVENTS_CAPACITY : Nat := 4096

/-- `FrameInfo` of types.h: heap-copied file / function strings and a
line number. -/
structure FrameInfo where
  file : Option String
  line : Int
  func : Option String
  deriving DecidableEq, Repr

/-- A zeroed `FrameInfo` (memset 0). -/
def emptyFrameInfo : FrameInfo := { file := none, line := 0, func := none }

/-- `ArgInfo` of types.h. -/
structure ArgInfo where
  name_owned : Option String
  id : Nat
  type_ref : Option String
  deriving DecidableEq, Repr

/-- `CreationInfo` of types.h: creation location, abbreviated traceback
(top first, at most `MAX_TRACEBACK_DEPTH` entries; `traceback_depth` is
the list length) and the type name. -/
structure CreationInfo where
  location : FrameInfo
  traceback : List FrameInfo
  type_name_ref : Option String
  deriving DecidableEq, Repr

/-- `EventType` of types.h. -/
inductive EventType where
  | call
  | ret
  | create
  | destroy
  deriving DecidableEq, Repr

/-- `Event` of types.h (the per-field error list is not modeled; it is
orthogonal to event identity and ordering). -/
structure Event where
  type : EventType
  obj_id : Nat
  type_name_ref : Option String
  location : FrameInfo
  caller : FrameInfo
  args : List ArgInfo
  creation_info : Option CreationInfo
  deriving DecidableEq, Repr

/-- The data `fill_call_event` (events.h) extracts from a code object
and interpreter frame: filename, qualified name, first line and the
named arguments present in the frame's locals. -/
structure CodeInfo where
  co_filename : Option String
  co_qualname : Option String
  co_firstlineno : Int
  args : List ArgInfo
  deriving DecidableEq, Repr

/-- Model of `fill_call_event` (events.h): location from the code
object, caller copied if present, at most `MAX_ARGS` arguments. -/
def fill_call_event (code : CodeInfo) (caller : Option FrameInfo) : Event :=
  { type := .call,
    obj_id := 0,
    type_name_ref := none,
    location := { file := code.co_filename, line := code.co_firstlineno, func := code.co_qualname },
    caller := caller.getD emptyFrameInfo,
    args := code.args.take MAX_ARGS,
    creation_info := none }

/-- Model of `fill_return_event` (events.h): location copied from the
saved call location; object id and type from the result if non-null. -/
def fill_return_event (location : FrameInfo) (result : Option (Nat × String)) : Event :=
  { type := .ret,
    obj_id := (result.map Prod.fst).getD 0,
    type_name_ref := result.map Prod.snd,
    location := location,
    caller := emptyFrameInfo,
    args := [],
    creation_info := none }

/-- Model of `fill_create_event` (events.h): location is the top of the
worker's call stack if non-empty. -/
def fill_create_event (obj_id : Nat) (type_name : String) (callStack : List FrameInfo) : Event :=
  { type := .create,
    obj_id := obj_id,
    type_name_ref := some type_name,
    location := (callStack.head?).getD emptyFrameInfo,
    caller := emptyFrameInfo,
    args := [],
    creation_info := none }

/-- Model of `fill_destroy_event` (events.h): destruction context from
the call stack plus the owned creation-info copy (ownership
transferred). -/
def fill_destroy_event (obj_id : Nat) (type_name : String) (callStack : List FrameInfo)
    (creation_copy : Option CreationInfo) : Event :=
  { type := .destroy,
    obj_id := obj_id,
    type_name_ref := some type_name,
    location := (callStack.head?).getD emptyFrameInfo,
    caller := emptyFrameInfo,
    args := [],
    creation_info := creation_copy }

/-- Module state of _tracking.c for one worker thread:
`tracking_active`, the barrier (with this worker's thread-local depth),
the event log (`events` / `events_count` = list length,
`events_capacity`), the creation-correlation map and the worker's
`call_stack` (top at head).  The `events` pointer is null exactly when
`events_capacity = 0` (both are reset together by `free_events` and set
together by a successful growth). -/
structure TrackState where
  tracking_active : Bool
  barrier : BarrierS
  tlDepth : Nat
  events : List Event
  eventsCapacity : Nat
  creationMap : List (Nat × CreationInfo)
  callStack : List FrameInfo
  deriving DecidableEq, Repr

/-- Doubling loop of `ensure_events_capacity` (_tracking.c lines
112-114), with explicit fuel (capacity is at least 1 entering the loop,
so `need` iterations always suffice). -/
def growCapLoop (need : Nat) : Nat → Nat → Nat
  | 0, cap => cap
  | fuel + 1, cap => if cap < need then growCapLoop need fuel (cap * 2) else cap

/-- Model of `ensure_events_capacity` (_tracking.c lines 103-124):
returns 1 (true) if there is room for `needed` more records, growing the
log by doubling if not; returns 0 (false), leaving everything unchanged,
when the `realloc` fails (`allocOk = false`).  It does NOT abort. -/
def ensure_events_capacity (allocOk : Bool) (needed : Nat) (st : TrackState) :
    Bool × TrackState :=
  if st.events.length + needed ≤ st.eventsCapacity then (true, st)
  else if allocOk then
    let base := if st.eventsCapacity = 0 then INITIAL_EVENTS_CAPACITY else st.eventsCapacity * 2
    (true, { st with eventsCapacity := growCapLoop (st.events.length + needed) (st.events.length + needed) base })
  else (false, st)

/-- The push guard of `tracking_frame_evaluator` (_tracking.c lines
193-196): the frame is pushed onto the worker's call stack only while
the depth is below `MAX_STACK_DEPTH`; deeper frames are silently not
pushed. -/
def eval_push (st : List FrameInfo) (f : FrameInfo) : List FrameInfo :=
  if st.length < MAX_STACK_DEPTH then f :: st else st

/-- The pop guard of `tracking_frame_evaluator` (_tracking.c lines
209-211): pop only when the stack is non-empty. -/
def eval_pop (st : List FrameInfo) : List FrameInfo :=
  if 0 < st.length then st.tail else st

/-- `barrier_try_enter` as called by _tracking.c, threading this
worker's thread-local depth through the module state. -/
def track_try_enter (st : TrackState) : Bool × TrackState :=
  match barrier_try_enter_fn st.tlDepth st.barrier with
  | (r, d, b) => (r, { st with tlDepth := d, barrier := b })

/-- `barrier_leave` as called by _tracking.c. -/
def track_leave (st : TrackState) : Outcome TrackState :=
  match barrier_leave_fn st.tlDepth st.barrier with
  | .aborted => .aborted
  | .ok (d, b) => .ok { st with tlDepth := d, barrier := b }

/-- Result of the CALL half of `tracking_frame_evaluator`: either the
call proceeds untracked (any `goto call_original` path), or it was
recorded and the evaluator saved the call location for the RETURN
half. -/
inductive CallPhase where
  | skipped (st : TrackState)
  | tracked (st : TrackState) (saved : FrameInfo)
  deriving DecidableEq, Repr

/-- Model of the CALL half of `tracking_frame_evaluator` (_tracking.c
lines 152-207, up to and including the `barrier_leave` before
`invoke_original_eval`): check `tracking_active`, enter the barrier,
check the code object, ensure capacity for CALL + RETURN (skipping the
event on growth failure), record the CALL event, conditionally push the
location, save it, and leave the barrier. -/
def tracking_frame_evaluator_call (allocOk : Bool) (code : Option CodeInfo)
    (st : TrackState) : Outcome CallPhase :=
  if st.tracking_active = false then .ok (.skipped st)
  else
    match track_try_enter st with
    | (false, st1) => .ok (.skipped st1)
    | (true, st1) =>
      match code with
      | none => (track_leave st1).map .skipped
      | some c =>
        match ensure_events_capacity allocOk 2 st1 with
        | (false, st2) => (track_leave st2).map .skipped
        | (true, st2) =>
          let caller := st2.callStack.head?
          let ev := fill_call_event c caller
          let st3 := { st2 with events := st2.events ++ [ev] }
          let st4 := { st3 with callStack := eval_push st3.callStack ev.location }
          (track_leave st4).map (fun st5 => .tracked st5 ev.location)

/-- Model of the RETURN half of `tracking_frame_evaluator` (_tracking.c
lines 209-238, after `invoke_original_eval` returned `result`): pop the
call stack, re-enter the barrier (skipping the RETURN event while
stopping), re-check `tracking_active` and the events pointer, re-check
capacity (skipping on growth failure), record the RETURN event and
leave. -/
def tracking_frame_evaluator_return (allocOk : Bool) (saved : FrameInfo)
    (result : Option (Nat × String)) (st : TrackState) : Outcome TrackState :=
  let st0 := { st with callStack := eval_pop st.callStack }
  match track_try_enter st0 with
  | (false, st1) => .ok st1
  | (true, st1) =>
    if st1.tracking_active = false ∨ st1.eventsCapacity = 0 then track_leave st1
    else
      match ensure_events_capacity allocOk 1 st1 with
      | (false, st2) => track_leave st2
      | (true, st2) =>
        track_leave { st2 with events := st2.events ++ [fill_return_event saved result] }

/-! ### Creation-correlation map (vendored verstable, hashtable.h)

`creation_map` maps object ids to `CreationInfo`.  The vendored hash
table is third-party code used through `vt_insert` (insert or replace),
`vt_get` (lookup) and `vt_erase_itr` (remove); it is modeled as an
association list with exactly those operations.  Iterator validity
(`vt_is_end`) corresponds to lookup success. -/

/-- Insert or replace: `vt_insert`. -/
def vt_insert (m : List (Nat × CreationInfo)) (k : Nat) (v : CreationInfo) :
    List (Nat × CreationInfo) :=
  match m with
  | [] => [(k, v)]
  | (k0, v0) :: rest => if k0 = k then (k, v) :: rest else (k0, v0) :: vt_insert rest k v

/-- Lookup: `vt_get` (`none` models `vt_is_end`). -/
def vt_get (m : List (Nat × CreationInfo)) (k : Nat) : Option CreationInfo :=
  match m with
  | [] => none
  | (k0, v0) :: rest => if k0 = k then some v0 else vt_get rest k

/-- Remove: `vt_erase_itr` on the iterator obtained from `vt_get`. -/
def vt_erase (m : List (Nat × CreationInfo)) (k : Nat) : List (Nat × CreationInfo) :=
  match m with
  | [] => []
  | (k0, v0) :: rest => if k0 = k then rest else (k0, v0) :: vt_erase rest k

/-- The `CreationInfo` recorded by `handle_ref_create` (_tracking.c
lines 253-269): type name always; location and traceback (top-first, at
most `MAX_TRACEBACK_DEPTH` frames) only when the call stack is
non-empty (otherwise they stay zeroed). -/
def mk_creation_info (type_name : String) (callStack : List FrameInfo) : CreationInfo :=
  { location := (callStack.head?).getD emptyFrameInfo,
    traceback := callStack.take MAX_TRACEBACK_DEPTH,
    type_name_ref := some type_name }

/-- Model of `handle_ref_create` (_tracking.c lines 251-280): store the
creation info in the map (insert-or-replace; the vendored insert's own
allocation failure, which would skip the store, is not modeled), then
record a CREATE event - silently skipped when the event log cannot
grow. -/
def handle_ref_create (allocOk : Bool) (obj_id : Nat) (type_name : String)
    (st : TrackState) : TrackState :=
  match ensure_events_capacity allocOk 1
      { st with
        creationMap := vt_insert st.creationMap obj_id (mk_creation_info type_name st.callStack) } with
  | (false, st2) => st2
  | (true, st2) =>
    { st2 with events := st2.events ++ [fill_create_event obj_id type_name st2.callStack] }

/-- Model of `handle_ref_destroy` (_tracking.c lines 285-312): look up
the creation info, copy it (heap copy; its `malloc` failing would drop
the copy and is covered by the same `allocOk` oracle), record a DESTROY
event carrying the copy (skipped, and the copy freed, when the log
cannot grow), then erase the map entry. -/
def handle_ref_destroy (allocOk : Bool) (obj_id : Nat) (type_name : String)
    (st : TrackState) : TrackState :=
  match ensure_events_capacity allocOk 1 st with
  | (false, st1) => { st1 with creationMap := vt_erase st1.creationMap obj_id }
  | (true, st1) =>
    { st1 with
      events := st1.events ++
        [fill_destroy_event obj_id type_name st1.callStack
          (if allocOk then vt_get st.creationMap obj_id else none)],
      creationMap := vt_erase st1.creationMap obj_id }

/-- The `PyRefTracerEvent` enumeration. -/
inductive RefEvent where
  | create
  | destroy
  deriving DecidableEq, Repr

/-- Model of `ref_tracer_callback` (_tracking.c lines 318-344): skip
when inactive; enter the barrier (skip while stopping); dispatch to the
create/destroy handler; leave. -/
def ref_tracer_callback (allocOk : Bool) (obj_id : Nat) (type_name : String)
    (event : RefEvent) (st : TrackState) : Outcome TrackState :=
  if st.tracking_active = false then .ok st
  else
    match track_try_enter st with
    | (false, st1) => .ok st1
    | (true, st1) =>
      let st2 :=
        match event with
        | .create => handle_ref_create allocOk obj_id type_name st1
        | .destroy => handle_ref_destroy allocOk obj_id type_name st1
      track_leave st2

/-- One producer-side operation on the worker, as seen inside an entered
protected section of an active session (the handler bodies of
`ref_tracer_callback` and the stack updates of
`tracking_frame_evaluator`), with allocation succeeding. -/
inductive MapOp where
  | push (f : FrameInfo)
  | pop
  | create (obj_id : Nat) (ty : String)
  | destroy (obj_id : Nat) (ty : String)
  deriving DecidableEq, Repr

/-- Apply one `MapOp`. -/
def runMapOp (st : TrackState) : MapOp → TrackState
  | .push f => { st with callStack := eval_push st.callStack f }
  | .pop => { st with callStack := eval_pop st.callStack }
  | .create i ty => handle_ref_create true i ty st
  | .destroy i ty => handle_ref_destroy true i ty st

/-- Run a sequence of producer-side operations. -/
def runMapOps (st : TrackState) (ops : List MapOp) : TrackState :=
  ops.foldl runMapOp st

/-- Module state right after `py_start` (_tracking.c lines 350-383):
events freed, map cleared, stack depth reset, barrier initialized,
tracking active. -/
def trackStart : TrackState :=
  { tracking_active := true,
    barrier := barrier_init_fn barrierZero,
    tlDepth := 0,
    events := [],
    eventsCapacity := 0,
    creationMap := [],
    callStack := [] }

/-- Result of `py_stop`: the two `PyErr_SetString` + `return nullptr`
paths and the success path handing the serialized events to Python. -/
inductive PyStopR where
  | notStarted
  | cannotStopFromCallback
  | okR (events : List Event)
  deriving DecidableEq, Repr

/-- Model of `py_stop` (_tracking.c lines 385-460), called by the thread
whose thread-local barrier depth is in the state: raises "Not started"
when inactive; clears `tracking_active`, asks the barrier to stop and
restores `tracking_active` on the from-callback error; on success
disables the hooks (external), destroys the barrier, serializes and
frees the events and the map. -/
def py_stop (st : TrackState) : PyStopR × TrackState :=
  if st.tracking_active = false then (.notStarted, st)
  else
    let st1 := { st with tracking_active := false }
    match barrier_stop_fn st1.tlDepth st1.barrier with
    | (.fromCallback, b) =>
      (.cannotStopFromCallback, { st1 with barrier := b, tracking_active := true })
    | (.ok, b) =>
      let b2 := barrier_destroy_fn b
      (.okR st1.events,
        { st1 with barrier := b2, events := [], eventsCapacity := 0, creationMap := [] })

/-! ### Derived scenario runners used by the claims -/

/-- A Call or Return event observed by one worker's evaluator stack. -/
inductive EvOp where
  | call (f : FrameInfo)
  | ret
  deriving DecidableEq, Repr

/-- Net unmatched Calls minus Returns over an observed evaluator
sequence (spec.md section 3, Invariants), as a running fold. -/
def evalNetStep (n : Int) : EvOp → Int
  | .call _ => n + 1
  | .ret => n - 1

/-- Net unmatched Calls minus Returns of a whole sequence. -/
def evalNet (ops : List EvOp) : Int :=
  ops.foldl evalNetStep 0

/-- The worker's `call_stack` of _tracking.c after a sequence of Call /
Return events, per the push and pop guards of
`tracking_frame_evaluator`. -/
def evalRun (st : List FrameInfo) (ops : List EvOp) : List FrameInfo :=
  ops.foldl
    (fun s op =>
      match op with
      | .call f => eval_push s f
      | .ret => eval_pop s)
    st

/-- The evaluator stack after `n` nested Calls (no Returns yet). -/
def pushN : Nat → List FrameInfo
  | 0 => []
  | n + 1 => eval_push (pushN n) emptyFrameInfo

/-! ### Concrete states used as witness inputs -/

/-- An initialized, active, idle barrier. -/
def wBarrierActive : BarrierS := { count := 0, stopping := false, initialized := true }

/-- The barrier after a completed stop. -/
def wBarrierStopped : BarrierS := { count := 0, stopping := true, initialized := true }

/-- A small code object for evaluator scenarios. -/
def wCode : CodeInfo :=
  { co_filename := some "a.py", co_qualname := some "f", co_firstlineno := 3, args := [] }

/-- A running callback-module session with a registered callback. -/
def wCbActive : CallbackS :=
  { g_callback := true,
    active := true,
    barrier := wBarrierActive,
    table := string_table_init 2 tableZero,
    invoked := [] }

/-- The callback module after a completed `tracking_stop`. -/
def wCbStopped : CallbackS :=
  { g_callback := false,
    active := false,
    barrier := { count := 0, stopping := true, initialized := false },
    table := tableZero,
    invoked := [] }

/-- An active tracking session whose worker thread is inside a protected
section (thread-local barrier depth 1). -/
def wInsideSection : TrackState := { trackStart with tlDepth := 1 }

/-- The tracking module after a completed `py_stop`. -/
def wTrackStopped : TrackState :=
  { trackStart with
    tracking_active := false,
    barrier := { count := 0, stopping := true, initialized := false } }

/-- A tiny initialized string table (capacity 2) for interning
witnesses. -/
def wTable0 : StringTable := string_table_init 2 tableZero

/-- The table after interning "a" into `wTable0`. -/
def wTable1 : StringTable :=
  match string_intern wTable0 (some "a") with
  | .ok (_, t) => t
  | .aborted => wTable0

/-- The table after additionally interning "b" and "c" (this crosses the
0.75 load factor and exercises `resize_buckets`). -/
def wTable2 : StringTable :=
  match internMany wTable1 ["b", "c"] with
  | .ok t => t
  | .aborted => wTable1

/-- The table after interning the empty string into `wTable0`. -/
def wTableEmptyStr : StringTable :=
  match string_intern wTable0 (some "") with
  | .ok (_, t) => t
  | .aborted => wTable0

/-- A sequence of 257 nested Calls (recursion depth one past
`MAX_STACK_DEPTH`). -/
def c4DeepCalls : List EvOp := List.replicate 257 (EvOp.call emptyFrameInfo)

/-- A small frame.c operation sequence: two pushes and a pop. -/
def c4FrameOps : List FrameOp :=
  [.push FRAME_NO_CALLER, .push FRAME_NO_CALLER, .pop]

/-- A small evaluator Call/Return sequence. -/
def c4EvOps : List EvOp := [.call emptyFrameInfo, .call emptyFrameInfo, .ret]

/-- Whether an operation is a Create or Destroy for this object
identity. -/
def op_touches_id (id : Nat) : MapOp → Bool
  | .create i _ => i == id
  | .destroy i _ => i == id
  | _ => false

/-- Whether an operation is a Create for this object identity. -/
def op_creates_id (id : Nat) : MapOp → Bool
  | .create i _ => i == id
  | _ => false

/-- A small producer sequence ending with a Create of identity 5. -/
def c6Created : List MapOp := [.push emptyFrameInfo, .create 5 "T"]

/-- Its prefix before the Create. -/
def c6Before : List MapOp := [.push emptyFrameInfo]

/-- A producer sequence that never Creates identity 9. -/
def c6NoCreate : List MapOp := [.push emptyFrameInfo]

/-- A barrier-model state (one producer thread) in which a `stop()` call
has completed: reachable from `bInit 1` by `stopBegin` then `stopOk`. -/
def wBDone : BState 1 :=
  { pc := fun _ => .outside, spc := .done, stopping := true, cnt := 0 }

/-! # Theorems -/

/-! ## Claim C10: null-event dispatch is a complete no-op -/

/-- Claim C10: `tracking_dispatch` called with a null event pointer
returns immediately - no barrier entry, no callback invocation, no state
change - regardless of whether tracking is active (the null check
precedes the active check in callback.c lines 94-105). -/
theorem tracking_dispatch_null_noop (depth : Nat) (st : CallbackS) :
    tracking_dispatch_fn none depth st = .ok ([], depth, st) := rfl

/-! ## Claim C3: stop from inside a protected section -/

/-- Claim C3: a `stop()` issued by a thread whose per-thread nesting
depth is positive returns `FromInsideProtectedSection` with no side
effects at the barrier level, and `py_stop` reports the error with the
session left Active and the whole module state unchanged. -/
theorem stop_from_inside_protected_section (st : TrackState)
    (hactive : st.tracking_active = true) (hdepth : 0 < st.tlDepth) :
    py_stop st = (.cannotStopFromCallback, st) ∧
    barrier_stop_fn st.tlDepth st.barrier = (.fromCallback, st.barrier) := by
  cases st with
  | mk ta bar dep evs cap cmap cstack =>
    simp only at hactive hdepth
    subst hactive
    have hb : barrier_stop_fn dep bar = (.fromCallback, bar) := by
      unfold barrier_stop_fn
      simp [hdepth]
    exact ⟨by unfold py_stop; simp [hb], hb⟩

/-- Witness for C3 at a concrete in-section session state. -/
theorem stop_from_inside_protected_section_witness :
    py_stop wInsideSection = (.cannotStopFromCallback, wInsideSection) ∧
    barrier_stop_fn wInsideSection.tlDepth wInsideSection.barrier =
      (.fromCallback, wInsideSection.barrier) :=
  stop_from_inside_protected_section wInsideSection rfl (by decide)

/-! ## Claim C9: interning outside a session aborts, barrier degrades -/

/-- Claim C9: `string_intern` on a non-null string with the table not
initialized aborts the process via `ASSERT_INITIALIZED` (it neither
returns a value nor an error), while the barrier operations degrade
gracefully in the uninitialized state: `try_enter` returns false,
`leave` is a no-op, `stop` returns Ok. -/
theorem intern_uninitialized_aborts (s : String) (tbl : StringTable) (b : BarrierS)
    (d : Nat) (ht : tbl.initialized = false) (hb : b.initialized = false) :
    string_intern tbl (some s) = .aborted ∧
    barrier_try_enter_fn d b = (false, d, b) ∧
    barrier_leave_fn d b = .ok (d, b) ∧
    barrier_stop_fn 0 b = (.ok, b) := by
  refine ⟨?_, ?_, ?_, ?_⟩
  · unfold string_intern
    simp [ht]
  · unfold barrier_try_enter_fn
    simp [hb]
  · unfold barrier_leave_fn
    simp [hb]
  · unfold barrier_stop_fn
    simp [hb]

/-- Witness for C9 on the zero-initialized global states. -/
theorem intern_uninitialized_aborts_witness :
    string_intern tableZero (some "x") = .aborted ∧
    barrier_try_enter_fn 0 barrierZero = (false, 0, barrierZero) ∧
    barrier_leave_fn 0 barrierZero = .ok (0, barrierZero) ∧
    barrier_stop_fn 0 barrierZero = (.ok, barrierZero) :=
  intern_uninitialized_aborts "x" tableZero barrierZero 0 rfl rfl

/-! ## Claim C7: idempotence of stop

The claim holds at the barrier level (`barrier_stop`) and at the
callback-module session level (`tracking_stop`), but not for the Python
module's session stop: after `py_stop` has returned the events, the
session is no longer active and a second `py_stop` raises "Not started"
instead of succeeding. -/

/-- Claim C7 counterexample: on a freshly started session the first
`py_stop` returns the (empty) event list, but the second session-level
`py_stop` reports "Not started" rather than Ok. -/
theorem py_stop_second_call_not_ok :
    (py_stop trackStart).1 = PyStopR.okR [] ∧
    (py_stop (py_stop trackStart).2).1 = PyStopR.notStarted ∧
    PyStopR.notStarted ≠ PyStopR.okR [] := by decide

/-- Claim C7 (amended): after a stop has returned Ok, every subsequent
`barrier_stop` returns Ok immediately (state unchanged, no wait), and
every subsequent callback-module `tracking_stop` returns Ok immediately;
the Python module's `py_stop`, by contrast, reports "Not started" once
the session is inactive. -/
theorem stop_idempotent :
    (∀ st st1 : BarrierS, barrier_stop_fn 0 st = (.ok, st1) →
      barrier_stop_fn 0 st1 = (.ok, st1))
    ∧ (∀ (d : Nat) (st st1 : CallbackS), tracking_stop_fn d st = (.ok, st1) →
      ∀ d2 : Nat, tracking_stop_fn d2 st1 = (.ok, st1))
    ∧ (∀ st : TrackState, st.tracking_active = false →
      py_stop st = (.notStarted, st)) := by
  refine ⟨?_, ?_, ?_⟩
  · intro st st1 h
    unfold barrier_stop_fn at h ⊢
    by_cases hi : st.initialized = false
    · simp [hi] at h
      subst h
      simp [hi]
    · by_cases hs : st.stopping
      · simp [hi, hs] at h
        subst h
        simp [hi, hs]
      · simp [hi, hs] at h
        subst h
        simp [hi]
  · intro d st st1 h d2
    unfold tracking_stop_fn at h ⊢
    by_cases ha : st.active = false
    · simp [ha] at h
      subst h
      simp [ha]
    · simp [ha] at h
      rcases hb : barrier_stop_fn d st.barrier with ⟨r, b⟩
      rw [hb] at h
      cases r
      · simp only [Prod.mk.injEq, true_and] at h
        subst h
        simp
      · simp at h
  · intro st h
    unfold py_stop
    simp [h]

/-- Witness for C7 at concrete post-stop states. -/
theorem stop_idempotent_witness :
    barrier_stop_fn 0 wBarrierStopped = (.ok, wBarrierStopped) ∧
    tracking_stop_fn 0 wCbStopped = (.ok, wCbStopped) ∧
    py_stop wTrackStopped = (.notStarted, wTrackStopped) :=
  ⟨stop_idempotent.1 wBarrierActive wBarrierStopped (by decide),
   stop_idempotent.2.1 0 wCbActive wCbStopped (by decide) 0,
   stop_idempotent.2.2 wTrackStopped rfl⟩

/-! ## Claim C1: event-log growth failure

The claim states that a failed growth of the event log aborts the
process (fail-first) and that no accepted event is silently dropped.
The code does the opposite: `ensure_events_capacity` returns 0 on
`realloc` failure, and every caller (`tracking_frame_evaluator`,
`handle_ref_create`, `handle_ref_destroy`) silently skips the record and
continues. -/

/-- Claim C1 counterexample: on the freshly started session with a full
(capacity 0) log and a failing allocation, the dispatched call event is
accepted into the protected section, growth fails, and the evaluator
neither aborts nor appends a record - the whole module state is
unchanged, the event is silently dropped. -/
theorem eventlog_growth_failure_no_abort :
    (track_try_enter trackStart).1 = true ∧
    (ensure_events_capacity false 2 (track_try_enter trackStart).2).1 = false ∧
    tracking_frame_evaluator_call false (some wCode) trackStart =
      .ok (.skipped trackStart) ∧
    tracking_frame_evaluator_call false (some wCode) trackStart ≠ .aborted := by decide

/-- Claim C1 (amended): when the event log must grow to append the
record of an event that was already accepted into a protected section
(active session, barrier entered) and the allocation fails, the
evaluator silently skips the record: it leaves the barrier, appends
nothing, keeps all state unchanged and does not abort. -/
theorem eventlog_growth_failure_skips (st : TrackState) (c : CodeInfo)
    (h1 : st.tracking_active = true) (h2 : st.barrier.initialized = true)
    (h3 : st.barrier.stopping = false)
    (h4 : st.eventsCapacity < st.events.length + 2) :
    tracking_frame_evaluator_call false (some c) st = .ok (.skipped st) := by
  cases st with
  | mk ta bar dep evs cap cmap cstack =>
    cases bar with
    | mk cnt stp ini =>
      simp only at h1 h2 h3 h4
      subst h1
      subst h2
      subst h3
      have hle : ¬ (evs.length + 2 ≤ cap) := by omega
      unfold tracking_frame_evaluator_call track_try_enter barrier_try_enter_fn
        ensure_events_capacity track_leave barrier_leave_fn
      simp [hle, Outcome.map]

/-- Witness for C1 (amended) on the fresh session state. -/
theorem eventlog_growth_failure_skips_witness :
    tracking_frame_evaluator_call false (some wCode) trackStart =
      .ok (.skipped trackStart) :=
  eventlog_growth_failure_skips trackStart wCode rfl rfl rfl (by decide)

/-! ## Claim C4: frame-stack depth versus unmatched Calls minus Returns

The frame.c Frame Stack satisfies the invariant at arbitrary depth.  The
per-thread `call_stack` used by `tracking_frame_evaluator` in
_tracking.c is a fixed 256-entry array: Calls at depth
`MAX_STACK_DEPTH` are silently not pushed, so for recursion deeper than
256 the depth stops matching the number of unmatched Calls. -/

theorem frame_foldl_aborted (ops : List FrameOp) :
    ops.foldl (fun acc op => acc.bind (fun st => frame_step st op)) Outcome.aborted =
      Outcome.aborted := by
  induction ops with
  | nil => rfl
  | cons op rest ih => simpa [Outcome.bind] using ih

theorem frame_run_from_net (ops : List FrameOp) :
    ∀ (st0 st : List StackFrame), frame_run_from st0 ops = .ok st →
      (st.length : Int) = ops.foldl netStep (st0.length : Int) := by
  induction ops with
  | nil =>
    intro st0 st h
    unfold frame_run_from at h
    simp at h
    simp [h]
  | cons op rest ih =>
    intro st0 st h
    unfold frame_run_from at h
    rw [List.foldl_cons] at h
    have h2 : rest.foldl (fun acc op => acc.bind (fun s => frame_step s op))
        (frame_step st0 op) = .ok st := h
    clear h
    cases hstep : frame_step st0 op with
    | aborted =>
      rw [hstep, frame_foldl_aborted] at h2
      exact absurd h2 (by simp)
    | ok st1 =>
      rw [hstep] at h2
      have hih := ih st1 st h2
      rw [List.foldl_cons]
      cases op with
      | push f =>
        simp only [frame_step, frame_stack_push] at hstep
        cases hstep
        simpa [netStep] using hih
      | pop =>
        cases st0 with
        | nil => simp [frame_step, frame_stack_pop] at hstep
        | cons x r =>
          simp only [frame_step, frame_stack_pop] at hstep
          cases hstep
          rw [hih]
          congr 1
          simp [netStep]
      | clear =>
        simp only [frame_step, frame_stack_clear] at hstep
        cases hstep
        simpa [netStep] using hih

theorem evalNet_append_one (ops : List EvOp) (op : EvOp) :
    evalNet (ops ++ [op]) = evalNetStep (evalNet ops) op := by
  unfold evalNet
  rw [List.foldl_append]
  rfl

theorem evalRun_append_one (st : List FrameInfo) (ops : List EvOp) (op : EvOp) :
    evalRun st (ops ++ [op]) =
      (match op with
       | .call f => eval_push (evalRun st ops) f
       | .ret => eval_pop (evalRun st ops)) := by
  unfold evalRun
  rw [List.foldl_append]
  rfl

theorem evalRun_bounded (ops : List EvOp)
    (h : ∀ k, k ≤ ops.length →
      0 ≤ evalNet (ops.take k) ∧ evalNet (ops.take k) ≤ (MAX_STACK_DEPTH : Int)) :
    ((evalRun [] ops).length : Int) = evalNet ops := by
  induction ops using List.reverseRecOn with
  | nil => simp [evalRun, evalNet]
  | append_singleton ops op ih =>
    have hpre : ∀ k, k ≤ ops.length →
        0 ≤ evalNet (ops.take k) ∧ evalNet (ops.take k) ≤ (MAX_STACK_DEPTH : Int) := by
      intro k hk
      have := h k (by simp; omega)
      rwa [List.take_append_of_le_length hk] at this
    have hall := h (ops.length + 1) (by simp)
    rw [show (ops ++ [op]).take (ops.length + 1) = ops ++ [op] by
      apply List.take_of_length_le
      simp] at hall
    have hih := ih hpre
    rw [evalNet_append_one] at hall ⊢
    rw [evalRun_append_one]
    cases op with
    | call f =>
      simp only [evalNetStep] at hall ⊢
      have hlt : (evalRun [] ops).length < MAX_STACK_DEPTH := by
        have := hall.2
        omega
      unfold eval_push
      rw [if_pos hlt]
      simp [hih]
    | ret =>
      simp only [evalNetStep] at hall ⊢
      have hge : 0 < (evalRun [] ops).length := by
        have := hall.1
        omega
      unfold eval_pop
      rw [if_pos hge]
      rw [List.length_tail]
      omega

set_option maxRecDepth 100000 in
/-- Claim C4 counterexample: a worker observing 257 nested Calls (deeper
than `MAX_STACK_DEPTH = 256`) has evaluator-stack depth 256, not the 257
unmatched Calls the claim asserts for recursion of arbitrary depth. -/
theorem eval_stack_depth_capped :
    ((evalRun [] c4DeepCalls).length : Int) ≠ evalNet c4DeepCalls ∧
    evalNet c4DeepCalls = 257 ∧
    (evalRun [] c4DeepCalls).length = 256 := by decide

/-- Claim C4 (amended): for every worker and every Call/Return/clear
sequence, the frame.c Frame Stack's depth equals the number of unmatched
Calls minus Returns since the last clear, at arbitrary recursion depth;
the evaluator-side per-thread `call_stack` of _tracking.c satisfies the
same equality only for sequences whose nesting depth never exceeds
`MAX_STACK_DEPTH` (256). -/
theorem frame_stack_depth_eq_unmatched :
    (∀ (ops : List FrameOp) (st : List StackFrame), frame_run ops = .ok st →
      (st.length : Int) = netSinceClear ops)
    ∧ (∀ ops : List EvOp,
        (∀ k, k ≤ ops.length →
          0 ≤ evalNet (ops.take k) ∧ evalNet (ops.take k) ≤ (MAX_STACK_DEPTH : Int)) →
        ((evalRun [] ops).length : Int) = evalNet ops) := by
  constructor
  · intro ops st h
    have := frame_run_from_net ops [] st h
    simpa [netSinceClear] using this
  · exact evalRun_bounded

/-- Witness for C4 at small concrete sequences. -/
theorem frame_stack_depth_eq_unmatched_witness :
    (([FRAME_NO_CALLER] : List StackFrame).length : Int) = netSinceClear c4FrameOps ∧
    ((evalRun [] c4EvOps).length : Int) = evalNet c4EvOps :=
  ⟨frame_stack_depth_eq_unmatched.1 c4FrameOps [FRAME_NO_CALLER] (by decide),
   frame_stack_depth_eq_unmatched.2 c4EvOps (by decide)⟩

/-! ## Claim C6: Destroy events carry the creation record -/

theorem vt_get_insert_self (m : List (Nat × CreationInfo)) (k : Nat) (v : CreationInfo) :
    vt_get (vt_insert m k v) k = some v := by
  induction m with
  | nil => simp [vt_insert, vt_get]
  | cons kv rest ih =>
    obtain ⟨k0, v0⟩ := kv
    unfold vt_insert
    by_cases h : k0 = k
    · simp [h, vt_get]
    · simp [h, vt_get, ih]

theorem vt_get_insert_other (m : List (Nat × CreationInfo)) (k id : Nat) (v : CreationInfo)
    (h : k ≠ id) : vt_get (vt_insert m k v) id = vt_get m id := by
  induction m with
  | nil => simp [vt_insert, vt_get, h]
  | cons kv rest ih =>
    obtain ⟨k0, v0⟩ := kv
    unfold vt_insert
    by_cases h0 : k0 = k
    · subst h0
      simp [vt_get, h]
    · simp only [if_neg h0]
      unfold vt_get
      by_cases h1 : k0 = id
      · simp [h1]
      · simp [h1, ih]

theorem vt_get_erase_other (m : List (Nat × CreationInfo)) (k id : Nat) (h : k ≠ id) :
    vt_get (vt_erase m k) id = vt_get m id := by
  induction m with
  | nil => simp [vt_erase]
  | cons kv rest ih =>
    obtain ⟨k0, v0⟩ := kv
    unfold vt_erase
    by_cases h0 : k0 = k
    · subst h0
      simp [vt_get, h]
    · simp only [if_neg h0]
      unfold vt_get
      by_cases h1 : k0 = id
      · simp [h1]
      · simp [h1, ih]

theorem vt_get_erase_of_none (m : List (Nat × CreationInfo)) (k id : Nat)
    (h : vt_get m id = none) : vt_get (vt_erase m k) id = none := by
  induction m with
  | nil => simpa [vt_erase] using h
  | cons kv rest ih =>
    obtain ⟨k0, v0⟩ := kv
    unfold vt_get at h
    by_cases h1 : k0 = id
    · simp [h1] at h
    · simp only [if_neg h1] at h
      unfold vt_erase
      by_cases h0 : k0 = k
      · simp [h0, h]
      · simp only [if_neg h0]
        unfold vt_get
        simp [h1, ih h]

theorem ensure_true (n : Nat) (st : TrackState) :
    ∃ c, ensure_events_capacity true n st = (true, { st with eventsCapacity := c }) := by
  unfold ensure_events_capacity
  by_cases h : st.events.length + n ≤ st.eventsCapacity
  · exact ⟨st.eventsCapacity, by simp [h]⟩
  · exact ⟨growCapLoop (st.events.length + n) (st.events.length + n)
      (if st.eventsCapacity = 0 then INITIAL_EVENTS_CAPACITY else st.eventsCapacity * 2),
      by simp [h]⟩

theorem handle_ref_create_spec (i : Nat) (ty : String) (st : TrackState) :
    ∃ c, handle_ref_create true i ty st =
      { st with
        creationMap := vt_insert st.creationMap i (mk_creation_info ty st.callStack),
        events := st.events ++ [fill_create_event i ty st.callStack],
        eventsCapacity := c } := by
  obtain ⟨c, hc⟩ :=
    ensure_true 1
      { st with creationMap := vt_insert st.creationMap i (mk_creation_info ty st.callStack) }
  refine ⟨c, ?_⟩
  unfold handle_ref_create
  rw [hc]

theorem handle_ref_destroy_spec (i : Nat) (ty : String) (st : TrackState) :
    ∃ c, handle_ref_destroy true i ty st =
      { st with
        creationMap := vt_erase st.creationMap i,
        events := st.events ++
          [fill_destroy_event i ty st.callStack (vt_get st.creationMap i)],
        eventsCapacity := c } := by
  obtain ⟨c, hc⟩ := ensure_true 1 st
  refine ⟨c, ?_⟩
  unfold handle_ref_destroy
  rw [hc]
  simp

theorem runMapOps_append (st : TrackState) (xs ys : List MapOp) :
    runMapOps st (xs ++ ys) = runMapOps (runMapOps st xs) ys := by
  unfold runMapOps
  exact List.foldl_append ..

theorem runMapOp_lookup_untouched (st : TrackState) (op : MapOp) (id : Nat)
    (h : op_touches_id id op = false) :
    vt_get (runMapOp st op).creationMap id = vt_get st.creationMap id := by
  cases op with
  | push f => rfl
  | pop => rfl
  | create i ty =>
    unfold op_touches_id at h
    have hne : i ≠ id := by simpa using h
    obtain ⟨c, hc⟩ := handle_ref_create_spec i ty st
    show vt_get (handle_ref_create true i ty st).creationMap id = _
    rw [hc]
    exact vt_get_insert_other _ _ _ _ hne
  | destroy i ty =>
    unfold op_touches_id at h
    have hne : i ≠ id := by simpa using h
    obtain ⟨c, hc⟩ := handle_ref_destroy_spec i ty st
    show vt_get (handle_ref_destroy true i ty st).creationMap id = _
    rw [hc]
    exact vt_get_erase_other _ _ _ hne

theorem runMapOps_lookup_untouched (ops : List MapOp) (id : Nat)
    (h : ∀ op ∈ ops, op_touches_id id op = false) :
    ∀ st, vt_get (runMapOps st ops).creationMap id = vt_get st.creationMap id := by
  induction ops with
  | nil => intro st; rfl
  | cons op rest ih =>
    intro st
    have hstep : runMapOps st (op :: rest) = runMapOps (runMapOp st op) rest := rfl
    rw [hstep, ih (fun o ho => h o (List.mem_cons_of_mem _ ho)),
      runMapOp_lookup_untouched st op id (h op (List.mem_cons_self _ _))]

theorem runMapOps_lookup_never_created (ops : List MapOp) (id : Nat)
    (h : ∀ op ∈ ops, op_creates_id id op = false) :
    ∀ st, vt_get st.creationMap id = none →
      vt_get (runMapOps st ops).creationMap id = none := by
  induction ops with
  | nil => intro st h0; exact h0
  | cons op rest ih =>
    intro st h0
    have hstep : runMapOps st (op :: rest) = runMapOps (runMapOp st op) rest := rfl
    rw [hstep]
    refine ih (fun o ho => h o (List.mem_cons_of_mem _ ho)) _ ?_
    cases op with
    | push f => exact h0
    | pop => exact h0
    | create i ty =>
      have hne : i ≠ id := by
        have := h _ (List.mem_cons_self _ _)
        unfold op_creates_id at this
        simpa using this
      obtain ⟨c, hc⟩ := handle_ref_create_spec i ty st
      show vt_get (handle_ref_create true i ty st).creationMap id = none
      rw [hc]
      show vt_get (vt_insert st.creationMap i (mk_creation_info ty st.callStack)) id = none
      rw [vt_get_insert_other _ _ _ _ hne]
      exact h0
    | destroy i ty =>
      obtain ⟨c, hc⟩ := handle_ref_destroy_spec i ty st
      show vt_get (handle_ref_destroy true i ty st).creationMap id = none
      rw [hc]
      exact vt_get_erase_of_none _ _ _ h0

/-- Claim C6: every Destroy event recorded for an identity whose most
recent correlation entry comes from a Create (a Create occurred and no
Create or Destroy for that identity intervened) carries a CreationRecord
equal to what `handle_ref_create` recorded at that Create (type name
plus the creating worker's call stack at creation time); a Destroy for
an identity never observed at Create records a normal event carrying no
CreationRecord (not an error). -/
theorem destroy_event_creation_record (u v w : List MapOp) (id : Nat) (ty tyc : String) :
    (u = v ++ MapOp.create id tyc :: w →
      (∀ op ∈ w, op_touches_id id op = false) →
      (runMapOps trackStart (u ++ [MapOp.destroy id ty])).events =
        (runMapOps trackStart u).events ++
          [fill_destroy_event id ty (runMapOps trackStart u).callStack
            (some (mk_creation_info tyc (runMapOps trackStart v).callStack))])
    ∧ ((∀ op ∈ u, op_creates_id id op = false) →
      (runMapOps trackStart (u ++ [MapOp.destroy id ty])).events =
        (runMapOps trackStart u).events ++
          [fill_destroy_event id ty (runMapOps trackStart u).callStack none]) := by
  have hdest : ∀ st : TrackState,
      (runMapOps st [MapOp.destroy id ty]).events =
        st.events ++ [fill_destroy_event id ty st.callStack (vt_get st.creationMap id)] := by
    intro st
    obtain ⟨c, hc⟩ := handle_ref_destroy_spec id ty st
    show (handle_ref_destroy true id ty st).events = _
    rw [hc]
  constructor
  · intro hu hw
    have hsplit : runMapOps trackStart u =
        runMapOps (runMapOp (runMapOps trackStart v) (MapOp.create id tyc)) w := by
      rw [hu, runMapOps_append]
      rfl
    have hget : vt_get (runMapOps trackStart u).creationMap id =
        some (mk_creation_info tyc (runMapOps trackStart v).callStack) := by
      rw [hsplit, runMapOps_lookup_untouched w id hw]
      obtain ⟨c, hc⟩ := handle_ref_create_spec id tyc (runMapOps trackStart v)
      show vt_get (handle_ref_create true id tyc (runMapOps trackStart v)).creationMap id = _
      rw [hc]
      show vt_get (vt_insert (runMapOps trackStart v).creationMap id
        (mk_creation_info tyc (runMapOps trackStart v).callStack)) id = _
      exact vt_get_insert_self _ _ _
    rw [runMapOps_append, hdest, hget]
  · intro hu
    have hget : vt_get (runMapOps trackStart u).creationMap id = none :=
      runMapOps_lookup_never_created u id hu trackStart rfl
    rw [runMapOps_append, hdest, hget]

/-- Witness for C6: a Create of identity 5 followed by its Destroy
carries the record made at creation; a Destroy of the never-created
identity 9 carries none. -/
theorem destroy_event_creation_record_witness :
    (runMapOps trackStart (c6Created ++ [MapOp.destroy 5 "T"])).events =
      (runMapOps trackStart c6Created).events ++
        [fill_destroy_event 5 "T" (runMapOps trackStart c6Created).callStack
          (some (mk_creation_info "T" (runMapOps trackStart c6Before).callStack))] ∧
    (runMapOps trackStart (c6NoCreate ++ [MapOp.destroy 9 "T"])).events =
      (runMapOps trackStart c6NoCreate).events ++
        [fill_destroy_event 9 "T" (runMapOps trackStart c6NoCreate).callStack none] :=
  ⟨(destroy_event_creation_record c6Created c6Before [] 5 "T" "T").1 (by decide) (by decide),
   (destroy_event_creation_record c6NoCreate [] [] 9 "T" "T").2 (by decide)⟩

/-! ## Claim C2: no overlap between a completed stop and protected sections

Proved over the interleaved transition system `BStep`: (1) once the
`stopping` flag is published, no step anywhere in the future can be a
successful `try_enter` (so every `try_enter` call completing after a
`stop()` has begun returns false), and (2) in every reachable state in
which `stop()` has returned Ok, no producer thread is inside a protected
section. -/

theorem bstep_stopping_mono {n : Nat} {s s' : BState n} {l : BLabel n}
    (h : BStep s l s') (hs : s.stopping = true) : s'.stopping = true := by
  cases h <;> simp_all

theorem bstar_stopping_mono {n : Nat} {s s' : BState n}
    (h : BStepStar s s') (hs : s.stopping = true) : s'.stopping = true := by
  induction h with
  | refl => exact hs
  | tail _ hstep ih =>
    obtain ⟨l, hl⟩ := hstep
    exact bstep_stopping_mono hl ih

theorem pcWeight_nonneg (p : PPC) : 0 ≤ pcWeight p := by
  cases p <;> simp [pcWeight]

theorem sum_update_weight {n : Nat} (f : Fin n → PPC) (t : Fin n) (v : PPC) :
    ∑ x, pcWeight (Function.update f t v x) =
      (∑ x, pcWeight (f x)) - pcWeight (f t) + pcWeight v := by
  have h1 : (fun x => pcWeight (Function.update f t v x)) =
      Function.update (fun x => pcWeight (f x)) t (pcWeight v) := by
    funext x
    by_cases hx : x = t
    · subst hx
      simp
    · rw [Function.update_noteq hx, Function.update_noteq hx]
  rw [h1, Finset.sum_update_of_mem (Finset.mem_univ t), ← Finset.erase_eq,
    Finset.sum_erase_eq_sub (Finset.mem_univ t)]
  ring

theorem breach_cnt {n : Nat} {s : BState n} (h : BReach s) :
    s.cnt = ∑ t, pcWeight (s.pc t) := by
  induction h with
  | init => simp [bInit, pcWeight]
  | @step s l s' h hs ih =>
    cases hs with
    | beginTE t ht =>
      show s.cnt = ∑ x, pcWeight (Function.update s.pc t PPC.started x)
      rw [sum_update_weight, ht, ih]
      simp [pcWeight]
    | failFast t ht hf =>
      show s.cnt = ∑ x, pcWeight (Function.update s.pc t PPC.outside x)
      rw [sum_update_weight, ht, ih]
      simp [pcWeight]
    | pass1 t ht hf =>
      show s.cnt = ∑ x, pcWeight (Function.update s.pc t PPC.passed1 x)
      rw [sum_update_weight, ht, ih]
      simp [pcWeight]
    | doInc t ht =>
      show s.cnt + 1 = ∑ x, pcWeight (Function.update s.pc t PPC.incr x)
      rw [sum_update_weight, ht, ih]
      simp [pcWeight]
    | failRace t ht hf =>
      show s.cnt - 1 = ∑ x, pcWeight (Function.update s.pc t PPC.outside x)
      rw [sum_update_weight, ht, ih]
      simp [pcWeight]
    | enterOk t ht hf =>
      show s.cnt = ∑ x, pcWeight (Function.update s.pc t PPC.inSec x)
      rw [sum_update_weight, ht, ih]
      simp [pcWeight]
    | leave t ht =>
      show s.cnt - 1 = ∑ x, pcWeight (Function.update s.pc t PPC.outside x)
      rw [sum_update_weight, ht, ih]
      simp [pcWeight]
    | stopBegin h1 h2 =>
      exact ih
    | stopOk h1 h2 =>
      exact ih

theorem breach_stop_flag {n : Nat} {s : BState n} (h : BReach s)
    (hspc : s.spc = .waiting ∨ s.spc = .done) : s.stopping = true := by
  induction h with
  | init => simp [bInit] at hspc
  | @step s l s' h hs ih =>
    cases hs with
    | beginTE t ht => exact ih hspc
    | failFast t ht hf => exact ih hspc
    | pass1 t ht hf => exact ih hspc
    | doInc t ht => exact ih hspc
    | failRace t ht hf => exact ih hspc
    | enterOk t ht hf => exact ih hspc
    | leave t ht => exact ih hspc
    | stopBegin h1 h2 => rfl
    | stopOk h1 h2 => exact ih (Or.inl h1)

theorem breach_done_no_insec {n : Nat} {s : BState n} (h : BReach s)
    (hd : s.spc = .done) : ∀ t, s.pc t ≠ .inSec := by
  induction h with
  | init => simp [bInit] at hd
  | @step s l s' h hs ih =>
    cases hs with
    | beginTE t0 ht =>
      intro t
      have hprev := ih hd
      by_cases hx : t = t0
      · subst hx
        simp [Function.update]
      · show Function.update s.pc t0 PPC.started t ≠ PPC.inSec
        rw [Function.update_noteq hx]
        exact hprev t
    | failFast t0 ht hf =>
      intro t
      have hprev := ih hd
      by_cases hx : t = t0
      · subst hx
        simp [Function.update]
      · show Function.update s.pc t0 PPC.outside t ≠ PPC.inSec
        rw [Function.update_noteq hx]
        exact hprev t
    | pass1 t0 ht hf =>
      intro t
      have hprev := ih hd
      by_cases hx : t = t0
      · subst hx
        simp [Function.update]
      · show Function.update s.pc t0 PPC.passed1 t ≠ PPC.inSec
        rw [Function.update_noteq hx]
        exact hprev t
    | doInc t0 ht =>
      intro t
      have hprev := ih hd
      by_cases hx : t = t0
      · subst hx
        simp [Function.update]
      · show Function.update s.pc t0 PPC.incr t ≠ PPC.inSec
        rw [Function.update_noteq hx]
        exact hprev t
    | failRace t0 ht hf =>
      intro t
      have hprev := ih hd
      by_cases hx : t = t0
      · subst hx
        simp [Function.update]
      · show Function.update s.pc t0 PPC.outside t ≠ PPC.inSec
        rw [Function.update_noteq hx]
        exact hprev t
    | enterOk t0 ht hf =>
      exact absurd (breach_stop_flag h (Or.inr hd)) (by simp [hf])
    | leave t0 ht =>
      intro t
      have hprev := ih hd
      by_cases hx : t = t0
      · subst hx
        simp [Function.update]
      · show Function.update s.pc t0 PPC.outside t ≠ PPC.inSec
        rw [Function.update_noteq hx]
        exact hprev t
    | stopBegin h1 h2 => simp at hd
    | stopOk h1 hc =>
      intro t
      have hcnt := breach_cnt h
      intro hin
      have hin2 : s.pc t = PPC.inSec := hin
      have hone : pcWeight (s.pc t) = 1 := by rw [hin2]; rfl
      have hle : pcWeight (s.pc t) ≤ ∑ x, pcWeight (s.pc x) :=
        Finset.single_le_sum (fun i _ => pcWeight_nonneg (s.pc i)) (Finset.mem_univ t)
      rw [hone, ← hcnt] at hle
      omega

theorem bstep_no_enter_of_stopping {n : Nat} {s s' : BState n} {l : BLabel n}
    (hstep : BStep s l s') (hstop : s.stopping = true) :
    ∀ t, l ≠ .enterOk t := by
  intro t hl
  cases hstep <;> simp_all

/-- Claim C2: over every interleaving of producer threads with one
stopping thread (every reachable state of the barrier transition
system): once `stop()` has begun (the Stopping flag is published), no
later step anywhere in the execution is a successful `try_enter` - all
subsequent `try_enter` calls return false - and whenever `stop()` has
returned Ok, no thread is inside a `try_enter`-protected section. -/
theorem barrier_stop_no_overlap {n : Nat} (s : BState n) (hr : BReach s) :
    (s.stopping = true →
      ∀ (s1 s2 : BState n) (l : BLabel n), BStepStar s s1 → BStep s1 l s2 →
        ∀ t, l ≠ .enterOk t)
    ∧ (s.spc = .done → ∀ t, s.pc t ≠ .inSec) := by
  constructor
  · intro hstop s1 s2 l hstar hstep t
    exact bstep_no_enter_of_stopping hstep (bstar_stopping_mono hstar hstop) t
  · intro hd
    exact breach_done_no_insec hr hd

/-! ## Claims C5 and C8: string interning

The correctness of `string_intern` rests on the open-addressing
invariant `WF`: soundness and completeness of `find_bucket`
(`probeFrom`), its termination while an empty bucket exists, stability
of probe results under filling one empty bucket (the only mutation the
table ever performs on its index), and preservation of `WF` by both the
plain insert and the resize-and-rehash path. -/

theorem probeFrom_ok_true (tbl : StringTable) (s : String) :
    ∀ (fuel idx b : Nat), probeFrom tbl s fuel idx = .ok (true, b) →
      ∃ e, tbl.buckets[b]? = some (some e) ∧ tbl.strings[e]? = some s := by
  intro fuel
  induction fuel with
  | zero =>
    intro idx b h
    simp [probeFrom] at h
  | succ f ih =>
    intro idx b h
    rw [probeFrom] at h
    cases hb : tbl.buckets[idx]? with
    | none =>
      rw [hb] at h
      simp at h
    | some v =>
      rw [hb] at h
      cases v with
      | none => simp at h
      | some e =>
        dsimp only at h
        by_cases hs : tbl.strings[e]? = some s
        · rw [if_pos hs] at h
          simp only [Outcome.ok.injEq, Prod.mk.injEq, true_and] at h
          subst h
          exact ⟨e, hb, hs⟩
        · rw [if_neg hs] at h
          exact ih _ _ h

theorem probeFrom_ok_false (tbl : StringTable) (s : String) :
    ∀ (fuel idx b : Nat), probeFrom tbl s fuel idx = .ok (false, b) →
      tbl.buckets[b]? = some none := by
  intro fuel
  induction fuel with
  | zero =>
    intro idx b h
    simp [probeFrom] at h
  | succ f ih =>
    intro idx b h
    rw [probeFrom] at h
    cases hb : tbl.buckets[idx]? with
    | none =>
      rw [hb] at h
      simp at h
    | some v =>
      rw [hb] at h
      cases v with
      | none =>
        simp only [Outcome.ok.injEq, Prod.mk.injEq, true_and] at h
        subst h
        exact hb
      | some e =>
        dsimp only at h
        by_cases hs : tbl.strings[e]? = some s
        · rw [if_pos hs] at h
          simp at h
        · rw [if_neg hs] at h
          exact ih _ _ h

theorem probeFrom_terminates (tbl : StringTable) (s : String) :
    ∀ (d fuel idx : Nat), d < fuel → idx < tbl.buckets.length →
      tbl.buckets[(idx + d) % tbl.buckets.length]? = some none →
      ∃ r, probeFrom tbl s fuel idx = .ok r := by
  intro d
  induction d with
  | zero =>
    intro fuel idx hf hidx hemp
    obtain ⟨f, rfl⟩ : ∃ f, fuel = f + 1 := ⟨fuel - 1, by omega⟩
    rw [Nat.add_zero, Nat.mod_eq_of_lt hidx] at hemp
    refine ⟨(false, idx), ?_⟩
    rw [probeFrom, hemp]
  | succ d ih =>
    intro fuel idx hf hidx hemp
    obtain ⟨f, rfl⟩ : ∃ f, fuel = f + 1 := ⟨fuel - 1, by omega⟩
    cases hb : tbl.buckets[idx]? with
    | none =>
      rw [List.getElem?_eq_getElem hidx] at hb
      simp at hb
    | some v =>
      cases v with
      | none => exact ⟨(false, idx), by rw [probeFrom, hb]⟩
      | some e =>
        by_cases hs : tbl.strings[e]? = some s
        · exact ⟨(true, idx), by rw [probeFrom, hb]; dsimp only; rw [if_pos hs]⟩
        · have hcap : 0 < tbl.buckets.length := by omega
          have hidx2 : (idx + 1) % tbl.buckets.length < tbl.buckets.length :=
            Nat.mod_lt _ hcap
          have hemp2 :
              tbl.buckets[((idx + 1) % tbl.buckets.length + d) % tbl.buckets.length]? =
                some none := by
            rw [Nat.mod_add_mod]
            have harith : idx + 1 + d = idx + (d + 1) := by ring
            rw [harith]
            exact hemp
          obtain ⟨r, hr⟩ := ih f ((idx + 1) % tbl.buckets.length) (by omega) hidx2 hemp2
          refine ⟨r, ?_⟩
          rw [probeFrom, hb]
          dsimp only
          rw [if_neg hs]
          exact hr

theorem exists_empty_bucket (l : List (Option Nat))
    (h : (l.filter Option.isSome).length < l.length) :
    ∃ b, b < l.length ∧ l[b]? = some none := by
  induction l with
  | nil => simp at h
  | cons x xs ih =>
    cases x with
    | none => exact ⟨0, by simp, by simp⟩
    | some e =>
      have h2 : (xs.filter Option.isSome).length < xs.length := by
        rw [List.filter_cons_of_pos (by simp)] at h
        simp only [List.length_cons] at h
        omega
      obtain ⟨b, hb, hbe⟩ := ih h2
      exact ⟨b + 1, by simp only [List.length_cons]; omega, by simpa using hbe⟩

theorem findBucket_ok (tbl : StringTable) (s : String)
    (hcap : 0 < tbl.buckets.length)
    (hfill : (tbl.buckets.filter Option.isSome).length < tbl.buckets.length) :
    ∃ r, findBucket tbl s = .ok r := by
  obtain ⟨b, hb, hbe⟩ := exists_empty_bucket _ hfill
  have hstartlt : fnv1a s % tbl.buckets.length < tbl.buckets.length := Nat.mod_lt _ hcap
  have hdlt : (tbl.buckets.length + b - fnv1a s % tbl.buckets.length) % tbl.buckets.length <
      tbl.buckets.length := Nat.mod_lt _ hcap
  have hsd : (fnv1a s % tbl.buckets.length +
      (tbl.buckets.length + b - fnv1a s % tbl.buckets.length) % tbl.buckets.length) %
        tbl.buckets.length = b := by
    rw [Nat.add_comm (fnv1a s % tbl.buckets.length), Nat.mod_add_mod]
    have harith : tbl.buckets.length + b - fnv1a s % tbl.buckets.length +
        fnv1a s % tbl.buckets.length = tbl.buckets.length + b := by omega
    rw [harith, Nat.add_mod_left, Nat.mod_eq_of_lt hb]
  apply probeFrom_terminates tbl s
    ((tbl.buckets.length + b - fnv1a s % tbl.buckets.length) % tbl.buckets.length)
    _ _ hdlt hstartlt
  rw [hsd]
  exact hbe

theorem getElem?_mem_of_some {α : Type} {l : List α} {i : Nat} {a : α}
    (h : l[i]? = some a) : a ∈ l :=
  List.mem_iff_getElem?.mpr ⟨i, h⟩

theorem nodup_getElem?_inj {α : Type} {l : List α} {i j : Nat} {a : α}
    (hnd : l.Nodup) (hi : l[i]? = some a) (hj : l[j]? = some a) : i = j := by
  obtain ⟨hi1, hi2⟩ := List.getElem?_eq_some.mp hi
  obtain ⟨hj1, hj2⟩ := List.getElem?_eq_some.mp hj
  exact (hnd.getElem_inj_iff).mp (by rw [hi2, hj2])

theorem filter_isSome_set_none (v : Nat) :
    ∀ (l : List (Option Nat)) (i : Nat), l[i]? = some none →
      ((l.set i (some v)).filter Option.isSome).length =
        (l.filter Option.isSome).length + 1 := by
  intro l
  induction l with
  | nil => intro i h; simp at h
  | cons x xs ih =>
    intro i h
    cases i with
    | zero =>
      simp at h
      subst h
      simp [List.filter_cons]
    | succ j =>
      simp at h
      have := ih j h
      cases x with
      | none => simpa [List.filter_cons] using this
      | some w => simpa [List.filter_cons] using this

theorem probeFrom_preserved (tbl tbl2 : StringTable) (s : String) (b0 nidx : Nat)
    (hstr : ∀ e, e < tbl.strings.length → tbl2.strings[e]? = tbl.strings[e]?)
    (hbk : tbl2.buckets = tbl.buckets.set b0 (some nidx))
    (hb0 : tbl.buckets[b0]? = some none)
    (hval : ∀ (b e : Nat), tbl.buckets[b]? = some (some e) → e < tbl.strings.length) :
    ∀ (fuel idx b : Nat), probeFrom tbl s fuel idx = .ok (true, b) →
      probeFrom tbl2 s fuel idx = .ok (true, b) := by
  have hlen : tbl2.buckets.length = tbl.buckets.length := by
    rw [hbk]
    exact List.length_set ..
  intro fuel
  induction fuel with
  | zero =>
    intro idx b h
    simp [probeFrom] at h
  | succ f ih =>
    intro idx b h
    rw [probeFrom] at h ⊢
    cases hb : tbl.buckets[idx]? with
    | none =>
      rw [hb] at h
      simp at h
    | some v =>
      rw [hb] at h
      cases v with
      | none => simp at h
      | some e =>
        dsimp only at h
        have hne : b0 ≠ idx := by
          intro heq
          rw [← heq, hb0] at hb
          simp at hb
        have hb2 : tbl2.buckets[idx]? = some (some e) := by
          rw [hbk, List.getElem?_set_ne hne]
          exact hb
        rw [hb2]
        dsimp only
        have he : e < tbl.strings.length := hval idx e hb
        have hs2 : tbl2.strings[e]? = tbl.strings[e]? := hstr e he
        by_cases hcs : tbl.strings[e]? = some s
        · rw [if_pos hcs] at h
          rw [hs2, if_pos hcs]
          exact h
        · rw [if_neg hcs] at h
          rw [hs2, if_neg hcs, hlen]
          exact ih _ _ h

theorem probeFrom_insert_hit (tbl tbl2 : StringTable) (s : String) (b0 nidx : Nat)
    (hstr : ∀ e, e < tbl.strings.length → tbl2.strings[e]? = tbl.strings[e]?)
    (hnew : tbl2.strings[nidx]? = some s)
    (hbk : tbl2.buckets = tbl.buckets.set b0 (some nidx))
    (hb0 : tbl.buckets[b0]? = some none)
    (hval : ∀ (b e : Nat), tbl.buckets[b]? = some (some e) → e < tbl.strings.length) :
    ∀ (fuel idx : Nat), probeFrom tbl s fuel idx = .ok (false, b0) →
      probeFrom tbl2 s fuel idx = .ok (true, b0) := by
  have hlen : tbl2.buckets.length = tbl.buckets.length := by
    rw [hbk]
    exact List.length_set ..
  have hb0lt : b0 < tbl.buckets.length := (List.getElem?_eq_some.mp hb0).1
  intro fuel
  induction fuel with
  | zero =>
    intro idx h
    simp [probeFrom] at h
  | succ f ih =>
    intro idx h
    rw [probeFrom] at h ⊢
    cases hb : tbl.buckets[idx]? with
    | none =>
      rw [hb] at h
      simp at h
    | some v =>
      rw [hb] at h
      cases v with
      | none =>
        dsimp only at h
        simp only [Outcome.ok.injEq, Prod.mk.injEq, true_and] at h
        subst h
        have hb2 : tbl2.buckets[idx]? = some (some nidx) := by
          rw [hbk, List.getElem?_set_self (by omega)]
        rw [hb2]
        dsimp only
        rw [if_pos hnew]
      | some e =>
        dsimp only at h
        have hne : b0 ≠ idx := by
          intro heq
          rw [← heq, hb0] at hb
          simp at hb
        have hb2 : tbl2.buckets[idx]? = some (some e) := by
          rw [hbk, List.getElem?_set_ne hne]
          exact hb
        rw [hb2]
        dsimp only
        have he : e < tbl.strings.length := hval idx e hb
        have hs2 : tbl2.strings[e]? = tbl.strings[e]? := hstr e he
        by_cases hcs : tbl.strings[e]? = some s
        · rw [if_pos hcs] at h
          simp at h
        · rw [if_neg hcs] at h
          rw [hs2, if_neg hcs, hlen]
          exact ih _ h

theorem findBucket_preserved (tbl tbl2 : StringTable) (s : String) (b0 nidx b : Nat)
    (hstr : ∀ e, e < tbl.strings.length → tbl2.strings[e]? = tbl.strings[e]?)
    (hbk : tbl2.buckets = tbl.buckets.set b0 (some nidx))
    (hb0 : tbl.buckets[b0]? = some none)
    (hval : ∀ (b e : Nat), tbl.buckets[b]? = some (some e) → e < tbl.strings.length)
    (h : findBucket tbl s = .ok (true, b)) : findBucket tbl2 s = .ok (true, b) := by
  have hlen : tbl2.buckets.length = tbl.buckets.length := by
    rw [hbk]
    exact List.length_set ..
  unfold findBucket at h ⊢
  rw [hlen]
  exact probeFrom_preserved tbl tbl2 s b0 nidx hstr hbk hb0 hval _ _ _ h

theorem findBucket_insert_hit (tbl tbl2 : StringTable) (s : String) (b0 nidx : Nat)
    (hstr : ∀ e, e < tbl.strings.length → tbl2.strings[e]? = tbl.strings[e]?)
    (hnew : tbl2.strings[nidx]? = some s)
    (hbk : tbl2.buckets = tbl.buckets.set b0 (some nidx))
    (hb0 : tbl.buckets[b0]? = some none)
    (hval : ∀ (b e : Nat), tbl.buckets[b]? = some (some e) → e < tbl.strings.length)
    (h : findBucket tbl s = .ok (false, b0)) : findBucket tbl2 s = .ok (true, b0) := by
  have hlen : tbl2.buckets.length = tbl.buckets.length := by
    rw [hbk]
    exact List.length_set ..
  unfold findBucket at h ⊢
  rw [hlen]
  exact probeFrom_insert_hit tbl tbl2 s b0 nidx hstr hnew hbk hb0 hval _ _ h

theorem findBucket_true_mem (tbl : StringTable) (s : String) (b : Nat)
    (h : findBucket tbl s = .ok (true, b)) : s ∈ tbl.strings := by
  unfold findBucket at h
  obtain ⟨e, -, hse⟩ := probeFrom_ok_true tbl s _ _ _ h
  exact getElem?_mem_of_some hse

theorem findBucket_false_not_mem (tbl : StringTable) (s : String) (bk : Nat)
    (hWF : WF tbl) (h : findBucket tbl s = .ok (false, bk)) : s ∉ tbl.strings := by
  intro hmem
  obtain ⟨i, hi⟩ := List.mem_iff_getElem?.mp hmem
  obtain ⟨b, hfb, -⟩ := hWF.reach i s hi
  rw [h] at hfb
  simp at hfb

theorem findBucket_false_of_not_mem (tbl : StringTable) (s : String)
    (hWF : WF tbl) (hnm : s ∉ tbl.strings) :
    ∃ bk, findBucket tbl s = .ok (false, bk) ∧ tbl.buckets[bk]? = some none := by
  have hfill : (tbl.buckets.filter Option.isSome).length < tbl.buckets.length := by
    rw [hWF.filled]
    exact hWF.count_lt
  obtain ⟨⟨flag, bk⟩, hr⟩ := findBucket_ok tbl s hWF.cap_pos hfill
  cases flag with
  | true => exact absurd (findBucket_true_mem tbl s bk hr) hnm
  | false =>
    refine ⟨bk, hr, ?_⟩
    unfold findBucket at hr
    exact probeFrom_ok_false tbl s _ _ _ hr

theorem WF_insert (tbl : StringTable) (hWF : WF tbl) (str : String) (bk : Nat)
    (hfind : findBucket tbl str = .ok (false, bk))
    (hload : tbl.strings.length + 1 < tbl.buckets.length) :
    WF { tbl with
         strings := tbl.strings ++ [str],
         buckets := tbl.buckets.set bk (some tbl.strings.length) } := by
  have hnm : str ∉ tbl.strings := findBucket_false_not_mem tbl str bk hWF hfind
  have hbknone : tbl.buckets[bk]? = some none := by
    have h2 := hfind
    unfold findBucket at h2
    exact probeFrom_ok_false tbl str _ _ _ h2
  have hbklt : bk < tbl.buckets.length := (List.getElem?_eq_some.mp hbknone).1
  have hstr : ∀ e, e < tbl.strings.length →
      (tbl.strings ++ [str])[e]? = tbl.strings[e]? := by
    intro e he
    exact List.getElem?_append_left he
  refine ⟨?_, ?_, ?_, ?_, ?_, ?_, ?_⟩
  · show 0 < (tbl.buckets.set bk (some tbl.strings.length)).length
    rw [List.length_set]
    exact hWF.cap_pos
  · intro b e hbe
    show e < (tbl.strings ++ [str]).length
    rw [List.length_append, List.length_singleton]
    rw [List.getElem?_set] at hbe
    by_cases hbb : bk = b
    · rw [if_pos hbb, if_pos (hbb ▸ hbklt)] at hbe
      simp at hbe
      omega
    · rw [if_neg hbb] at hbe
      have := hWF.entries_lt b e hbe
      omega
  · intro b1 b2 e h1 h2
    rw [List.getElem?_set] at h1 h2
    by_cases hb1 : bk = b1 <;> by_cases hb2 : bk = b2
    · omega
    · rw [if_pos hb1, if_pos (hb1 ▸ hbklt)] at h1
      rw [if_neg hb2] at h2
      simp at h1
      have := hWF.entries_lt b2 e h2
      omega
    · rw [if_pos hb2, if_pos (hb2 ▸ hbklt)] at h2
      rw [if_neg hb1] at h1
      simp at h2
      have := hWF.entries_lt b1 e h1
      omega
    · rw [if_neg hb1] at h1
      rw [if_neg hb2] at h2
      exact hWF.inj b1 b2 e h1 h2
  · show ((tbl.buckets.set bk (some tbl.strings.length)).filter Option.isSome).length =
      (tbl.strings ++ [str]).length
    rw [filter_isSome_set_none _ _ _ hbknone, hWF.filled, List.length_append,
      List.length_singleton]
  · show (tbl.strings ++ [str]).length < (tbl.buckets.set bk (some tbl.strings.length)).length
    rw [List.length_append, List.length_singleton, List.length_set]
    omega
  · show (tbl.strings ++ [str]).Nodup
    rw [List.nodup_append]
    exact ⟨hWF.nodup, List.nodup_singleton str, by simpa using hnm⟩
  · intro i s2 hi
    by_cases hlt : i < tbl.strings.length
    · rw [List.getElem?_append_left hlt] at hi
      obtain ⟨b, hfb, hbb⟩ := hWF.reach i s2 hi
      have hfb2 := findBucket_preserved tbl
        { tbl with
          strings := tbl.strings ++ [str],
          buckets := tbl.buckets.set bk (some tbl.strings.length) }
        s2 bk tbl.strings.length b hstr rfl hbknone hWF.entries_lt hfb
      refine ⟨b, hfb2, ?_⟩
      have hbne : bk ≠ b := by
        intro heq
        rw [← heq, hbknone] at hbb
        simp at hbb
      show (tbl.buckets.set bk (some tbl.strings.length))[b]? = some (some i)
      rw [List.getElem?_set_ne hbne]
      exact hbb
    · have hib : i < (tbl.strings ++ [str]).length := (List.getElem?_eq_some.mp hi).1
      rw [List.length_append, List.length_singleton] at hib
      have hieq : i = tbl.strings.length := by omega
      subst hieq
      rw [List.getElem?_concat_length] at hi
      have hs2 : s2 = str := by
        simpa using hi.symm
      subst hs2
      have hnew : (tbl.strings ++ [s2])[tbl.strings.length]? = some s2 :=
        List.getElem?_concat_length ..
      have hfb2 := findBucket_insert_hit tbl
        { tbl with
          strings := tbl.strings ++ [s2],
          buckets := tbl.buckets.set bk (some tbl.strings.length) }
        s2 bk tbl.strings.length hstr hnew rfl hbknone hWF.entries_lt hfind
      refine ⟨bk, hfb2, ?_⟩
      show (tbl.buckets.set bk (some tbl.strings.length))[bk]? =
        some (some tbl.strings.length)
      rw [List.getElem?_set_self hbklt]

theorem filter_isSome_replicate_none :
    ∀ n : Nat, (List.replicate n (none : Option Nat)).filter Option.isSome = [] := by
  intro n
  induction n with
  | zero => rfl
  | succ m ih =>
    rw [List.replicate_succ, List.filter_cons]
    simp only [Option.isSome_none, Bool.false_eq_true, if_false]
    exact ih

theorem rehash_fold (orig : StringTable) (hWF : WF orig) :
    ∀ (rest processed : List (Option Nat)) (t : StringTable),
      processed ++ rest = orig.buckets →
      RehashMid orig processed t →
      ∃ t2, rest.foldl rehash_step (.ok t) = .ok t2 ∧ RehashMid orig orig.buckets t2 := by
  intro rest
  induction rest with
  | nil =>
    intro processed t hsplit hmid
    refine ⟨t, rfl, ?_⟩
    have hpe : processed = orig.buckets := by
      rw [← hsplit, List.append_nil]
    rw [← hpe]
    exact hmid
  | cons ob rest ih =>
    intro processed t hsplit hmid
    cases ob with
    | none =>
      rw [List.foldl_cons]
      show ∃ t2, rest.foldl rehash_step (.ok t) = .ok t2 ∧ RehashMid orig orig.buckets t2
      apply ih (processed ++ [none]) t
      · rw [List.append_assoc]
        simpa using hsplit
      · refine ⟨hmid.strings_eq, hmid.init_eq, hmid.len_eq, ?_, hmid.entries_lt,
          hmid.inj, ?_, ?_⟩
        · intro b e hbe
          exact List.mem_append_left _ (hmid.entries_sub b e hbe)
        · rw [List.filter_append, List.length_append]
          have hnil : ([(none : Option Nat)].filter Option.isSome).length = 0 := rfl
          rw [hnil, hmid.filled]
          omega
        · intro e hmem
          rcases List.mem_append.mp hmem with hl | hr
          · exact hmid.reach e hl
          · simp at hr
    | some e =>
      have horig_e : orig.buckets[processed.length]? = some (some e) := by
        rw [← hsplit, List.getElem?_append_right (Nat.le_refl _)]
        simp
      have e_lt : e < orig.strings.length := hWF.entries_lt _ e horig_e
      obtain ⟨se, hse⟩ : ∃ se, orig.strings[e]? = some se :=
        ⟨_, List.getElem?_eq_getElem e_lt⟩
      have hts : t.strings[e]? = some se := by rw [hmid.strings_eq]; exact hse
      have enotmem : some e ∉ processed := by
        intro hmem
        obtain ⟨p, hp⟩ := List.mem_iff_getElem?.mp hmem
        have hplt : p < processed.length := (List.getElem?_eq_some.mp hp).1
        have horig_p : orig.buckets[p]? = some (some e) := by
          rw [← hsplit, List.getElem?_append_left hplt]
          exact hp
        have := hWF.inj p processed.length e horig_p horig_e
        omega
      have hcap_t : 0 < t.buckets.length := by
        have := hWF.cap_pos
        rw [hmid.len_eq]
        omega
      have hfill_t : (t.buckets.filter Option.isSome).length < t.buckets.length := by
        have hpref : (processed.filter Option.isSome).length ≤
            (orig.buckets.filter Option.isSome).length := by
          rw [← hsplit, List.filter_append, List.length_append]
          omega
        have h1 := hWF.filled
        have h2 := hWF.count_lt
        have h3 := hmid.filled
        rw [hmid.len_eq]
        omega
      obtain ⟨⟨flag, bk⟩, hfind⟩ := findBucket_ok t se hcap_t hfill_t
      cases flag with
      | true =>
        exfalso
        have hfind2 := hfind
        unfold findBucket at hfind2
        obtain ⟨e2, hbk2, hstr2⟩ := probeFrom_ok_true t se _ _ _ hfind2
        have hmem2 : some e2 ∈ processed := hmid.entries_sub _ e2 hbk2
        have horig2 : orig.strings[e2]? = some se := by
          rw [← hmid.strings_eq]
          exact hstr2
        have : e2 = e := nodup_getElem?_inj hWF.nodup horig2 hse
        subst this
        exact enotmem hmem2
      | false =>
        have hbk_none : t.buckets[bk]? = some none := by
          have hfind2 := hfind
          unfold findBucket at hfind2
          exact probeFrom_ok_false t se _ _ _ hfind2
        have hbklt : bk < t.buckets.length := (List.getElem?_eq_some.mp hbk_none).1
        have hstep : rehash_step (.ok t) (some e) =
            .ok { t with buckets := t.buckets.set bk (some e) } := by
          unfold rehash_step
          dsimp only
          rw [hts]
          dsimp only
          rw [hfind]
        rw [List.foldl_cons, hstep]
        apply ih (processed ++ [some e]) { t with buckets := t.buckets.set bk (some e) }
        · rw [List.append_assoc]
          simpa using hsplit
        · refine ⟨hmid.strings_eq, hmid.init_eq, ?_, ?_, ?_, ?_, ?_, ?_⟩
          · show (t.buckets.set bk (some e)).length = orig.buckets.length * 2
            rw [List.length_set]
            exact hmid.len_eq
          · intro b e2 hbe
            show some e2 ∈ processed ++ [some e]
            rw [List.getElem?_set] at hbe
            by_cases hbb : bk = b
            · rw [if_pos hbb, if_pos (hbb ▸ hbklt)] at hbe
              simp at hbe
              subst hbe
              exact List.mem_append_right _ (by simp)
            · rw [if_neg hbb] at hbe
              exact List.mem_append_left _ (hmid.entries_sub b e2 hbe)
          · intro b e2 hbe
            show e2 < t.strings.length
            rw [List.getElem?_set] at hbe
            by_cases hbb : bk = b
            · rw [if_pos hbb, if_pos (hbb ▸ hbklt)] at hbe
              simp at hbe
              subst hbe
              rw [hmid.strings_eq]
              exact e_lt
            · rw [if_neg hbb] at hbe
              exact hmid.entries_lt b e2 hbe
          · intro b1 b2 e2 h1 h2
            rw [List.getElem?_set] at h1 h2
            by_cases hb1 : bk = b1 <;> by_cases hb2 : bk = b2
            · omega
            · exfalso
              rw [if_pos hb1, if_pos (hb1 ▸ hbklt)] at h1
              rw [if_neg hb2] at h2
              simp at h1
              subst h1
              exact enotmem (hmid.entries_sub b2 _ h2)
            · exfalso
              rw [if_pos hb2, if_pos (hb2 ▸ hbklt)] at h2
              rw [if_neg hb1] at h1
              simp at h2
              subst h2
              exact enotmem (hmid.entries_sub b1 _ h1)
            · rw [if_neg hb1] at h1
              rw [if_neg hb2] at h2
              exact hmid.inj b1 b2 e2 h1 h2
          · show ((t.buckets.set bk (some e)).filter Option.isSome).length =
              ((processed ++ [some e]).filter Option.isSome).length
            rw [filter_isSome_set_none _ _ _ hbk_none, hmid.filled,
              List.filter_append, List.length_append]
            rfl
          · intro e2 hmem
            rcases List.mem_append.mp hmem with hl | hr
            · obtain ⟨b, s2, hs2, hfindb, hbucket⟩ := hmid.reach e2 hl
              refine ⟨b, s2, hs2, ?_, ?_⟩
              · exact findBucket_preserved t
                  { t with buckets := t.buckets.set bk (some e) } s2 bk e b
                  (fun _ _ => rfl) rfl hbk_none hmid.entries_lt hfindb
              · have hbne : bk ≠ b := by
                  intro heq
                  rw [← heq, hbk_none] at hbucket
                  simp at hbucket
                show (t.buckets.set bk (some e))[b]? = some (some e2)
                rw [List.getElem?_set_ne hbne]
                exact hbucket
            · have he2 : e2 = e := by simpa using hr
              subst he2
              refine ⟨bk, se, hts, ?_, ?_⟩
              · exact findBucket_insert_hit t
                  { t with buckets := t.buckets.set bk (some e2) } se bk e2
                  (fun _ _ => rfl) hts rfl hbk_none hmid.entries_lt hfind
              · show (t.buckets.set bk (some e2))[bk]? = some (some e2)
                rw [List.getElem?_set_self hbklt]

theorem resize_WF (tbl : StringTable) (hWF : WF tbl) :
    ∃ t2, resize_buckets tbl = .ok t2 ∧ WF t2 ∧ t2.strings = tbl.strings ∧
      t2.initialized = tbl.initialized ∧
      t2.buckets.length = tbl.buckets.length * 2 := by
  have hmid0 : RehashMid tbl []
      { tbl with buckets := List.replicate (tbl.buckets.length * 2) none } := by
    refine ⟨rfl, rfl, ?_, ?_, ?_, ?_, ?_, ?_⟩
    · show (List.replicate (tbl.buckets.length * 2) (none : Option Nat)).length =
        tbl.buckets.length * 2
      rw [List.length_replicate]
    · intro b e hbe
      rw [List.getElem?_replicate] at hbe
      split at hbe <;> simp_all
    · intro b e hbe
      rw [List.getElem?_replicate] at hbe
      split at hbe <;> simp_all
    · intro b1 b2 e h1 h2
      rw [List.getElem?_replicate] at h1
      split at h1 <;> simp_all
    · show ((List.replicate (tbl.buckets.length * 2) (none : Option Nat)).filter
        Option.isSome).length = (([] : List (Option Nat)).filter Option.isSome).length
      rw [filter_isSome_replicate_none]
      rfl
    · intro e hmem
      simp at hmem
  obtain ⟨t2, h1, h2⟩ := rehash_fold tbl hWF tbl.buckets []
    { tbl with buckets := List.replicate (tbl.buckets.length * 2) none } (by simp) hmid0
  refine ⟨t2, ?_, ?_, h2.strings_eq, h2.init_eq, h2.len_eq⟩
  · unfold resize_buckets
    exact h1
  · refine ⟨?_, h2.entries_lt, h2.inj, ?_, ?_, ?_, ?_⟩
    · rw [h2.len_eq]
      have := hWF.cap_pos
      omega
    · rw [h2.filled, hWF.filled, h2.strings_eq]
    · rw [h2.strings_eq, h2.len_eq]
      have := hWF.count_lt
      omega
    · rw [h2.strings_eq]
      exact hWF.nodup
    · intro i s hi
      have hio : tbl.strings[i]? = some s := by
        rw [← h2.strings_eq]
        exact hi
      obtain ⟨b, -, hbb⟩ := hWF.reach i s hio
      have hmem : some i ∈ tbl.buckets := getElem?_mem_of_some hbb
      obtain ⟨b2, s2, hs2, hfind2, hbucket2⟩ := h2.reach i hmem
      have hss : s2 = s := by
        rw [hi] at hs2
        simpa using hs2.symm
      subst hss
      exact ⟨b2, hfind2, hbucket2⟩

theorem string_intern_mem (tbl : StringTable) (str : String) (i : Nat)
    (hWF : WF tbl) (hinit : tbl.initialized = true)
    (hi : tbl.strings[i]? = some str) :
    string_intern tbl (some str) = .ok (some i, tbl) := by
  obtain ⟨b, hfind, hbucket⟩ := hWF.reach i str hi
  have hcond : ¬ (tbl.initialized = false) := by
    rw [hinit]
    simp
  unfold string_intern
  dsimp only
  rw [if_neg hcond, hfind]
  dsimp only
  rw [hbucket]

theorem string_intern_not_mem (tbl : StringTable) (str : String)
    (hWF : WF tbl) (hinit : tbl.initialized = true) (hnm : str ∉ tbl.strings) :
    ∃ tbl2, string_intern tbl (some str) = .ok (some tbl.strings.length, tbl2) ∧
      WF tbl2 ∧ tbl2.strings = tbl.strings ++ [str] ∧ tbl2.initialized = true := by
  obtain ⟨bk, hfind, hbknone⟩ := findBucket_false_of_not_mem tbl str hWF hnm
  have hcond : ¬ (tbl.initialized = false) := by
    rw [hinit]
    simp
  unfold string_intern
  dsimp only
  rw [if_neg hcond, hfind]
  dsimp only
  by_cases hload : 4 * (tbl.strings.length + 1) > 3 * tbl.buckets.length
  · rw [if_pos hload]
    obtain ⟨t2, hres, hWF2, hstr2, hinit2, hlen2⟩ := resize_WF tbl hWF
    rw [hres]
    dsimp only
    have hnm2 : str ∉ t2.strings := by
      rw [hstr2]
      exact hnm
    obtain ⟨bk2, hfind2, hbk2none⟩ := findBucket_false_of_not_mem t2 str hWF2 hnm2
    rw [hfind2]
    dsimp only
    have hload2 : t2.strings.length + 1 < t2.buckets.length := by
      have h1 := hWF.count_lt
      have h2 := hWF.cap_pos
      have h3 : t2.strings.length = tbl.strings.length := by rw [hstr2]
      omega
    have hcnt : t2.strings.length = tbl.strings.length := by rw [hstr2]
    refine ⟨{ t2 with
        strings := t2.strings ++ [str],
        buckets := t2.buckets.set bk2 (some t2.strings.length) }, ?_, ?_, ?_, ?_⟩
    · rw [hcnt]
    · exact WF_insert t2 hWF2 str bk2 hfind2 hload2
    · show t2.strings ++ [str] = tbl.strings ++ [str]
      rw [hstr2]
    · show t2.initialized = true
      rw [hinit2, hinit]
  · rw [if_neg hload]
    dsimp only
    refine ⟨{ tbl with
        strings := tbl.strings ++ [str],
        buckets := tbl.buckets.set bk (some tbl.strings.length) }, rfl, ?_, rfl, hinit⟩
    exact WF_insert tbl hWF str bk hfind
      (by
        have := hWF.cap_pos
        omega)

theorem string_intern_post (tbl : StringTable) (str : String)
    (hWF : WF tbl) (hinit : tbl.initialized = true) :
    ∃ h tbl2, string_intern tbl (some str) = .ok (some h, tbl2) ∧
      WF tbl2 ∧ tbl2.initialized = true ∧ tbl2.strings[h]? = some str ∧
      (∀ (j : Nat) (sj : String), tbl.strings[j]? = some sj → tbl2.strings[j]? = some sj) := by
  by_cases hmem : str ∈ tbl.strings
  · obtain ⟨i, hi⟩ := List.mem_iff_getElem?.mp hmem
    exact ⟨i, tbl, string_intern_mem tbl str i hWF hinit hi, hWF, hinit, hi,
      fun j sj hj => hj⟩
  · obtain ⟨tbl2, heq, hWF2, hstr2, hinit2⟩ := string_intern_not_mem tbl str hWF hinit hmem
    refine ⟨tbl.strings.length, tbl2, heq, hWF2, hinit2, ?_, ?_⟩
    · rw [hstr2]
      exact List.getElem?_concat_length ..
    · intro j sj hj
      rw [hstr2]
      have hjlt : j < tbl.strings.length := (List.getElem?_eq_some.mp hj).1
      rw [List.getElem?_append_left hjlt]
      exact hj

theorem internMany_post (l : List String) :
    ∀ tbl, WF tbl → tbl.initialized = true →
      ∃ t2, internMany tbl l = .ok t2 ∧ WF t2 ∧ t2.initialized = true ∧
        (∀ (j : Nat) (sj : String), tbl.strings[j]? = some sj → t2.strings[j]? = some sj) := by
  induction l with
  | nil =>
    intro tbl hWF hinit
    exact ⟨tbl, rfl, hWF, hinit, fun _ _ h => h⟩
  | cons s rest ih =>
    intro tbl hWF hinit
    obtain ⟨h, tbl1, heq, hWF1, hinit1, hh, hpres⟩ := string_intern_post tbl s hWF hinit
    obtain ⟨t2, heq2, hWF2, hinit2, hpres2⟩ := ih tbl1 hWF1 hinit1
    refine ⟨t2, ?_, hWF2, hinit2, fun j sj hj => hpres2 j sj (hpres j sj hj)⟩
    unfold internMany
    rw [heq]
    exact heq2

theorem roundPow2Aux_pos (target : Nat) :
    ∀ (fuel cap : Nat), 0 < cap → 0 < roundPow2Aux target fuel cap := by
  intro fuel
  induction fuel with
  | zero =>
    intro cap hc
    exact hc
  | succ f ih =>
    intro cap hc
    unfold roundPow2Aux
    by_cases hlt : cap < target
    · rw [if_pos hlt]
      exact ih (cap * 2) (by omega)
    · rw [if_neg hlt]
      exact hc

theorem WF_string_table_init (c : Nat) (tbl : StringTable)
    (h : tbl.initialized = false) :
    WF (string_table_init c tbl) ∧ (string_table_init c tbl).initialized = true := by
  unfold string_table_init
  rw [h]
  rw [if_neg (by simp)]
  dsimp only
  constructor
  · refine ⟨?_, ?_, ?_, ?_, ?_, ?_, ?_⟩
    · rw [List.length_replicate]
      exact roundPow2Aux_pos _ _ _ (by omega)
    · intro b e hbe
      rw [List.getElem?_replicate] at hbe
      split at hbe <;> simp_all
    · intro b1 b2 e h1 h2
      rw [List.getElem?_replicate] at h1
      split at h1 <;> simp_all
    · rw [filter_isSome_replicate_none]
      rfl
    · show ([] : List String).length < (List.replicate _ (none : Option Nat)).length
      rw [List.length_replicate]
      exact roundPow2Aux_pos _ _ _ (by omega)
    · exact List.nodup_nil
    · intro i s hi
      simp at hi
  · rfl

/-- Claim C5: within one session (a well-formed initialized table and
any interleaving of further interns, all serialized by the table mutex),
`intern(s)` returns the same handle however many times and after however
many other interns - in particular across table growth - the handle's
content never changes, and interning a different byte sequence `t` never
returns the handle of `s`. -/
theorem interning_handle_identity (tbl : StringTable) (s t : String) (h1 : Nat)
    (tbl1 : StringTable) (hWF : WF tbl) (hinit : tbl.initialized = true)
    (hs : string_intern tbl (some s) = .ok (some h1, tbl1)) :
    (∀ (l : List String) (tbl2 : StringTable), internMany tbl1 l = .ok tbl2 →
      string_intern tbl2 (some s) = .ok (some h1, tbl2) ∧ tbl2.strings[h1]? = some s)
    ∧ (s ≠ t → ∀ (h2 : Nat) (tbl2 : StringTable),
        string_intern tbl1 (some t) = .ok (some h2, tbl2) → h2 ≠ h1) := by
  obtain ⟨h1x, tbl1x, heq, hWF1, hinit1, hh1, hpres⟩ := string_intern_post tbl s hWF hinit
  rw [hs] at heq
  simp only [Outcome.ok.injEq, Prod.mk.injEq, Option.some.injEq] at heq
  obtain ⟨hh, ht⟩ := heq
  subst hh
  subst ht
  constructor
  · intro l tbl2 hl
    obtain ⟨t2, heq2, hWF2, hinit2, hpres2⟩ := internMany_post l tbl1 hWF1 hinit1
    rw [hl] at heq2
    simp only [Outcome.ok.injEq] at heq2
    subst heq2
    have hh2 : tbl2.strings[h1]? = some s := hpres2 h1 s hh1
    exact ⟨string_intern_mem tbl2 s h1 hWF2 hinit2 hh2, hh2⟩
  · intro hst h2 tbl2 ht2
    obtain ⟨h2x, tbl2x, heq2, hWF2, hinit2, hh2, hpres2⟩ :=
      string_intern_post tbl1 t hWF1 hinit1
    rw [ht2] at heq2
    simp only [Outcome.ok.injEq, Prod.mk.injEq, Option.some.injEq] at heq2
    obtain ⟨hh, htx⟩ := heq2
    subst hh
    subst htx
    intro hcontra
    subst hcontra
    have hsa : tbl2.strings[h2]? = some s := hpres2 h2 s hh1
    rw [hsa] at hh2
    simp at hh2
    exact hst hh2

/-- Witness for C5: in the concrete capacity-2 session, "a" interns to
handle 0, and after interning "b" and "c" (which doubles the bucket
array), interning "a" again still returns handle 0 with unchanged
content. -/
theorem interning_handle_identity_witness :
    string_intern wTable2 (some "a") = .ok (some 0, wTable2) ∧
    wTable2.strings[0]? = some "a" :=
  (interning_handle_identity wTable0 "a" "b" 0 wTable1
    (WF_string_table_init 2 tableZero rfl).1 rfl (by decide)).1 ["b", "c"] wTable2
    (by decide)

/-- Claim C8: `intern(null)` returns null and leaves the table alone;
interning the empty string does not abort, returns a non-null handle,
and is idempotent (interning "" again yields the same handle and the
same table). -/
theorem intern_null_and_empty_string (tbl : StringTable)
    (hWF : WF tbl) (hinit : tbl.initialized = true) :
    string_intern tbl none = .ok (none, tbl) ∧
    string_intern tbl (some "") ≠ .aborted ∧
    (∀ (r : Option Nat) (tbl1 : StringTable),
      string_intern tbl (some "") = .ok (r, tbl1) → r ≠ none) ∧
    (∀ (h : Nat) (tbl1 : StringTable),
      string_intern tbl (some "") = .ok (some h, tbl1) →
        string_intern tbl1 (some "") = .ok (some h, tbl1)) := by
  obtain ⟨h, tbl1, heq, hWF1, hinit1, hh, -⟩ := string_intern_post tbl "" hWF hinit
  refine ⟨rfl, ?_, ?_, ?_⟩
  · rw [heq]
    simp
  · intro r t1 hr
    rw [heq] at hr
    simp only [Outcome.ok.injEq, Prod.mk.injEq] at hr
    obtain ⟨hr1, -⟩ := hr
    rw [← hr1]
    simp
  · intro h2 t1 hr
    rw [heq] at hr
    simp only [Outcome.ok.injEq, Prod.mk.injEq, Option.some.injEq] at hr
    obtain ⟨hr1, hr2⟩ := hr
    subst hr1
    subst hr2
    exact string_intern_mem tbl1 "" h hWF1 hinit1 hh

/-- Witness for C8 on the concrete capacity-2 table: null interns to
null, and the empty string interns to handle 0, idempotently. -/
theorem intern_null_and_empty_string_witness :
    string_intern wTable0 none = .ok (none, wTable0) ∧
    string_intern wTableEmptyStr (some "") = .ok (some 0, wTableEmptyStr) :=
  ⟨(intern_null_and_empty_string wTable0 (WF_string_table_init 2 tableZero rfl).1 rfl).1,
   (intern_null_and_empty_string wTable0
      (WF_string_table_init 2 tableZero rfl).1 rfl).2.2.2 0 wTableEmptyStr (by decide)⟩

/-- Witness for C2: the concrete completed-stop state reached by
`stopBegin` then `stopOk` from the initial one-producer state has its
producer outside any protected section. -/
theorem barrier_stop_no_overlap_witness : wBDone.pc (0 : Fin 1) ≠ PPC.inSec := by
  have h1 : BStep (bInit 1) BLabel.stopBegin
      { bInit 1 with spc := .waiting, stopping := true } :=
    BStep.stopBegin rfl rfl
  have h2 : BStep { bInit 1 with spc := .waiting, stopping := true } BLabel.stopOk wBDone :=
    BStep.stopOk rfl (by norm_num [bInit])
  have hr : BReach wBDone := BReach.step (BReach.step BReach.init h1) h2
  exact (barrier_stop_no_overlap wBDone hr).2 rfl (0 : Fin 1)

end Archcheck
